import Mathlib

/-!
Verification of the pipedream repository specification.

Part A embeds the JavaScript helper functions of
`components/*/common/utils.mjs` (src/unnamed/part_001) and of the
`stripe-search-customers` action (src/unnamed/part_000) over a small model of
JavaScript values.

Part B models the Destination Delivery subsystem (spec sections 2-7); the
subsystem's implementation is not present under src/, only its documentation,
so those definitions are modelled from the spec and marked as such.
-/

namespace Pipedream

/-- Model of a JavaScript number for the code under verification: either `NaN`
or an integer (fractional doubles play no role in the embedded code). -/
inductive JSNum where
  | nan : JSNum
  | int : Int → JSNum
  deriving DecidableEq, Repr

/-- Model of a JavaScript value: `undefined`, `null`, booleans, numbers,
strings, arrays, plain objects (ordered field lists; JS objects have unique
keys by construction), and function values (opaque, tagged by an id). -/
inductive JSVal where
  | vundefined : JSVal
  | vnull : JSVal
  | vbool : Bool → JSVal
  | vnum : JSNum → JSVal
  | vstr : String → JSVal
  | varr : List JSVal → JSVal
  | vobj : List (String × JSVal) → JSVal
  | vfunc : Nat → JSVal
  deriving Repr

mutual

/-- Structural equality test on modelled JS values. -/
def beqVal : JSVal → JSVal → Bool
  | .vundefined, .vundefined => true
  | .vnull, .vnull => true
  | .vbool a, .vbool b => a == b
  | .vnum a, .vnum b => a == b
  | .vstr a, .vstr b => a == b
  | .varr a, .varr b => beqValList a b
  | .vobj a, .vobj b => beqValFields a b
  | .vfunc a, .vfunc b => a == b
  | _, _ => false

/-- Structural equality test on lists of modelled JS values. -/
def beqValList : List JSVal → List JSVal → Bool
  | [], [] => true
  | x :: xs, y :: ys => beqVal x y && beqValList xs ys
  | _, _ => false

/-- Structural equality test on object field lists. -/
def beqValFields : List (String × JSVal) → List (String × JSVal) → Bool
  | [], [] => true
  | (k, v) :: xs, (l, w) :: ys => k == l && beqVal v w && beqValFields xs ys
  | _, _ => false

end

mutual

theorem beqVal_eq : ∀ a b : JSVal, beqVal a b = true ↔ a = b
  | .vundefined, b => by cases b <;> simp [beqVal]
  | .vnull, b => by cases b <;> simp [beqVal]
  | .vbool a, b => by cases b <;> simp [beqVal]
  | .vnum a, b => by cases b <;> simp [beqVal]
  | .vstr a, b => by cases b <;> simp [beqVal]
  | .varr a, b => by
      cases b <;> simp [beqVal]
      exact beqValList_eq a _
  | .vobj a, b => by
      cases b <;> simp [beqVal]
      exact beqValFields_eq a _
  | .vfunc a, b => by cases b <;> simp [beqVal]

theorem beqValList_eq : ∀ a b : List JSVal, beqValList a b = true ↔ a = b
  | [], [] => by simp [beqValList]
  | [], _ :: _ => by simp [beqValList]
  | _ :: _, [] => by simp [beqValList]
  | x :: xs, y :: ys => by
      simp [beqValList, beqVal_eq x y, beqValList_eq xs ys]

theorem beqValFields_eq : ∀ a b : List (String × JSVal), beqValFields a b = true ↔ a = b
  | [], [] => by simp [beqValFields]
  | [], _ :: _ => by simp [beqValFields]
  | _ :: _, [] => by simp [beqValFields]
  | (k, v) :: xs, (l, w) :: ys => by
      simp [beqValFields, beqVal_eq v w, beqValFields_eq xs ys, and_assoc]

end

instance : DecidableEq JSVal := fun a b =>
  decidable_of_iff _ (beqVal_eq a b)

namespace JSVal

/-- JavaScript truthiness of a modelled value: `undefined`, `null`, `false`,
`0`, `NaN` and `""` are falsy; every other value is truthy. -/
def truthy : JSVal → Bool
  | .vundefined => false
  | .vnull => false
  | .vbool b => b
  | .vnum .nan => false
  | .vnum (.int i) => decide (i ≠ 0)
  | .vstr s => decide (s ≠ "")
  | .varr _ => true
  | .vobj _ => true
  | .vfunc _ => true

/-- `typeof v !== "object"` for a modelled value: true exactly for
`undefined`, booleans, numbers, strings and functions (in JS, `typeof null`
is `"object"` and arrays are objects). -/
def typeofNotObject : JSVal → Bool
  | .vundefined => true
  | .vbool _ => true
  | .vnum _ => true
  | .vstr _ => true
  | .vfunc _ => true
  | .vnull => false
  | .varr _ => false
  | .vobj _ => false

end JSVal

/-- Errors a modelled JS computation can throw. -/
inductive JSError where
  | typeError : JSError
  deriving DecidableEq, Repr

/-- The JavaScript `String.prototype.trim` builtin (not repository code):
drop whitespace from both ends. -/
def jsTrim (s : String) : String :=
  ⟨((s.data.dropWhile Char.isWhitespace).reverse.dropWhile Char.isWhitespace).reverse⟩

/-- `emptyStrToUndefined` from src/unnamed/part_001: a string whose trim is
empty becomes `undefined`; every other value is returned unchanged (for
non-strings the `typeof(value) === "string" && value.trim()` guard evaluates
to `false`, which is not `=== ""`, so the value is returned). -/
def emptyStrToUndefined (value : JSVal) : JSVal :=
  match value with
  | .vstr s => if jsTrim s = "" then .vundefined else .vstr s
  | v => v

/-- The body of the `Object.entries(value).reduce(...)` call in
`emptyObjectToUndefined` (src/unnamed/part_001): a left fold over the entries
that spreads the accumulator and adds the entry's key exactly when
`emptyStrToUndefined(value)` is truthy; with the unique keys of
`Object.entries` the spread amounts to appending the entry. -/
def reduceEntries (entries : List (String × JSVal)) : List (String × JSVal) :=
  entries.foldl
    (fun reduction kv =>
      if (emptyStrToUndefined kv.2).truthy then reduction ++ [kv] else reduction)
    []

/-- `emptyObjectToUndefined` from src/unnamed/part_001. Non-objects (by
`typeof`) and arrays are returned unchanged; `null` reaches
`Object.keys(null)`, which throws a `TypeError`; an object with no keys
becomes `undefined`; otherwise the entries are reduced and the result is
`undefined` when no key survives, else the reduced object. -/
def emptyObjectToUndefined (value : JSVal) : Except JSError JSVal :=
  if value.typeofNotObject || (match value with | .varr _ => true | _ => false) then
    .ok value
  else
    match value with
    | .vnull => .error .typeError
    | .vobj entries =>
        if entries.length = 0 then
          .ok .vundefined
        else
          let reduction := reduceEntries entries
          .ok (if reduction.length ≠ 0 then .vobj reduction else .vundefined)
    | v => .ok v

/-- The optional string props of the `stripe-search-customers` action
(src/unnamed/part_000): `none` models an unset prop (`undefined`). -/
structure SearchProps where
  query : Option String
  email : Option String
  emailDomain : Option String
  createdAfter : Option String
  createdBefore : Option String
  deriving DecidableEq, Repr

/-- Truthiness of an optional string prop: unset and `""` are falsy. -/
def optTruthy : Option String → Bool
  | none => false
  | some s => decide (s ≠ "")

/-- `value.replace(/"/g, "\\\"")` — escape every double quote. -/
def escapeQuotes (s : String) : String :=
  s.foldl (fun acc c => if c = '"' then acc ++ "\\\"" else acc.push c) ""

/-- Rendering of a JS number into a template string. -/
def jsNumToString : JSNum → String
  | .nan => "NaN"
  | .int i => toString i

/-- Rendering of the timestamp value interpolated into the query template. -/
def jsTsToString : JSVal → String
  | .vnum n => jsNumToString n
  | .vnull => "null"
  | _ => ""

/-- `convertDateToTimestamp` from src/unnamed/part_000. The `Date` builtin is
not repository code, so the embedding is parameterized by
`getTime : String → JSNum`, the epoch milliseconds `new Date(s).getTime()`
(`JSNum.nan` for an invalid date). A falsy `dateStr` (unset or `""`) returns
`null`; otherwise `Math.floor(getTime / 1000)` (`NaN` propagates). -/
def convertDateToTimestamp (getTime : String → JSNum) (dateStr : Option String) : JSVal :=
  match dateStr with
  | none => .vnull
  | some s =>
      if s = "" then .vnull
      else
        match getTime (s ++ "T00:00:00Z") with
        | .nan => .vnum .nan
        | .int ms => .vnum (.int (Int.fdiv ms 1000))

/-- `buildSearchQuery` from src/unnamed/part_000: a raw `query` prop wins;
otherwise email, email-domain, created-after and created-before clauses are
pushed when their value is truthy, and joined with " AND ". -/
def buildSearchQuery (getTime : String → JSNum) (p : SearchProps) : String :=
  if optTruthy p.query then p.query.getD ""
  else
    let parts : List String := []
    let parts := if optTruthy p.email
      then parts ++ ["email=\"" ++ escapeQuotes (p.email.getD "") ++ "\""] else parts
    let parts := if optTruthy p.emailDomain
      then parts ++ ["email~\"" ++ escapeQuotes (p.emailDomain.getD "") ++ "\""] else parts
    let afterTs := convertDateToTimestamp getTime p.createdAfter
    let parts := if afterTs.truthy
      then parts ++ ["created>" ++ jsTsToString afterTs] else parts
    let beforeTs := convertDateToTimestamp getTime p.createdBefore
    let parts := if beforeTs.truthy
      then parts ++ ["created<" ++ jsTsToString beforeTs] else parts
    String.intercalate " AND " parts

theorem reduceEntries_eq_filter (entries : List (String × JSVal)) :
    reduceEntries entries
      = entries.filter (fun kv => (emptyStrToUndefined kv.2).truthy) := by
  have h : ∀ (l : List (String × JSVal)) (acc : List (String × JSVal)),
      l.foldl
        (fun reduction kv =>
          if (emptyStrToUndefined kv.2).truthy then reduction ++ [kv] else reduction)
        acc
        = acc ++ l.filter (fun kv => (emptyStrToUndefined kv.2).truthy) := by
    intro l
    induction l with
    | nil => intro acc; simp
    | cons x xs ih =>
        intro acc
        by_cases hx : (emptyStrToUndefined x.2).truthy
        · simp [List.foldl_cons, List.filter_cons, hx, ih]
        · simp [List.foldl_cons, List.filter_cons, hx, ih]
  simpa [reduceEntries] using h entries []

theorem convertDateToTimestamp_falsy (getTime : String → JSNum) (s : String)
    (h : getTime (s ++ "T00:00:00Z") = .nan ∨ getTime (s ++ "T00:00:00Z") = .int 0) :
    (convertDateToTimestamp getTime (some s)).truthy = false := by
  unfold convertDateToTimestamp
  by_cases hs : s = ""
  · simp [hs, JSVal.truthy]
  · rcases h with h | h <;> simp [hs, h, JSVal.truthy]

/-- C8: for every non-null, non-array object, `emptyObjectToUndefined` keeps
exactly the keys whose values are truthy after `emptyStrToUndefined`
normalization (dropping `0`, `false`, `null`, `""` and whitespace-only
strings), returns `undefined` when no key survives (including the empty
object), and returns every non-object or array argument unchanged. -/
theorem c8_emptyObjectToUndefined_keeps_truthy_keys
    (entries : List (String × JSVal)) (xs : List JSVal) (w : JSVal) :
    (emptyObjectToUndefined (.vobj entries)
        = .ok (if entries.filter (fun kv => (emptyStrToUndefined kv.2).truthy) = []
            then JSVal.vundefined
            else .vobj (entries.filter (fun kv => (emptyStrToUndefined kv.2).truthy))))
    ∧ (∀ kv : String × JSVal,
        kv ∈ entries.filter (fun kv => (emptyStrToUndefined kv.2).truthy)
          ↔ kv ∈ entries ∧ (emptyStrToUndefined kv.2).truthy = true)
    ∧ (emptyStrToUndefined (.vnum (.int 0))).truthy = false
    ∧ (emptyStrToUndefined (.vbool false)).truthy = false
    ∧ (emptyStrToUndefined .vnull).truthy = false
    ∧ (emptyStrToUndefined (.vstr "")).truthy = false
    ∧ (∀ s : String, jsTrim s = "" → (emptyStrToUndefined (.vstr s)).truthy = false)
    ∧ (w.typeofNotObject = true → emptyObjectToUndefined w = .ok w)
    ∧ emptyObjectToUndefined (.varr xs) = .ok (.varr xs) := by
  refine ⟨?_, ?_, by decide, by decide, by decide, by decide, ?_, ?_, ?_⟩
  · unfold emptyObjectToUndefined
    simp only [JSVal.typeofNotObject, Bool.false_or]
    rw [reduceEntries_eq_filter]
    rcases entries with _ | ⟨kv, rest⟩
    · simp
    · by_cases hF :
        List.filter (fun kv => (emptyStrToUndefined kv.2).truthy) (kv :: rest) = []
      · simp [hF]
      · simp [hF, List.length_eq_zero]
  · intro kv
    simp [List.mem_filter]
  · intro s hs
    simp [emptyStrToUndefined, hs, JSVal.truthy]
  · intro hw
    unfold emptyObjectToUndefined
    rw [hw]
    simp
  · unfold emptyObjectToUndefined
    simp [JSVal.typeofNotObject]

/-- C9: `emptyObjectToUndefined(null)` throws a `TypeError`: `typeof null` is
`"object"` and `null` is not an array, so the function reaches
`Object.keys(null)`, which throws — the function is not total on arbitrary
values. -/
theorem c9_emptyObjectToUndefined_null_throws :
    emptyObjectToUndefined .vnull = .error .typeError := rfl

/-- C10: `convertDateToTimestamp` returns `null` for every falsy `dateStr`;
a created-after/created-before clause is included only when the computed
timestamp is truthy, so an unparseable date (timestamp `NaN`) and the date
`1970-01-01` (timestamp `0`) silently omit the filter from the query with no
error. -/
theorem c10_date_filter_silently_omitted
    (getTime : String → JSNum) (p : SearchProps) (s : String) :
    convertDateToTimestamp getTime none = .vnull
    ∧ convertDateToTimestamp getTime (some "") = .vnull
    ∧ (getTime (s ++ "T00:00:00Z") = .nan ∨ getTime (s ++ "T00:00:00Z") = .int 0 →
        (p.createdAfter = some s →
          buildSearchQuery getTime p
            = buildSearchQuery getTime { p with createdAfter := none })
        ∧ (p.createdBefore = some s →
          buildSearchQuery getTime p
            = buildSearchQuery getTime { p with createdBefore := none }))
    ∧ (getTime ("1970-01-01" ++ "T00:00:00Z") = .int 0 →
        convertDateToTimestamp getTime (some "1970-01-01") = .vnum (.int 0)
        ∧ JSVal.truthy (.vnum (.int 0)) = false) := by
  have hnone : (convertDateToTimestamp getTime none).truthy = false := rfl
  refine ⟨rfl, by simp [convertDateToTimestamp], ?_, ?_⟩
  · intro h
    have hfalsy := convertDateToTimestamp_falsy getTime s h
    constructor
    · intro hca
      cases p
      simp only at hca
      subst hca
      simp [buildSearchQuery, hfalsy, hnone]
    · intro hcb
      cases p
      simp only at hcb
      subst hcb
      simp [buildSearchQuery, hfalsy, hnone]
  · intro h
    have h1 : getTime "1970-01-01T00:00:00Z" = .int 0 := h
    refine ⟨?_, by decide⟩
    simp [convertDateToTimestamp, h1]

/-- Concrete instantiation of the C10 theorem: with a clock on which
`"bad-date"` does not parse, the created-after filter is omitted. -/
def getTime0 : String → JSNum := fun s =>
  if s = "1970-01-01T00:00:00Z" then .int 0 else .nan

theorem c10_date_filter_silently_omitted_witness :
    buildSearchQuery getTime0 ⟨none, some "a@b.com", none, some "bad-date", none⟩
      = buildSearchQuery getTime0 ⟨none, some "a@b.com", none, none, none⟩ := by
  have h := (c10_date_filter_silently_omitted getTime0
      ⟨none, some "a@b.com", none, some "bad-date", none⟩ "bad-date").2.2.1
  exact (h (Or.inl (by decide))).1 rfl

/-!
### Part B: the Destination Delivery subsystem

The subsystem itself is not present under src/ (only its documentation,
docs-v2/pages/workflows/data-management/destinations/index.mdx, and the spec);
every definition below is modelled from the spec and says so.
-/

/-- Modelled from the spec (section 6): the recognized destination types. -/
inductive DestType where
  | http
  | objectStorage
  | email
  | pushChannel
  | reEmit
  deriving DecidableEq, Repr

/-- Modelled from the spec (section 6): parsing of the producer-supplied
`destinationType` string; any other string is an unknown type. -/
def parseDestType : String → Option DestType
  | "http" => some .http
  | "object-storage" => some .objectStorage
  | "email" => some .email
  | "push-channel" => some .pushChannel
  | "re-emit" => some .reEmit
  | _ => none

/-- Modelled from the spec (section 3): `deliveryMode ∈ {immediate, batched}`. -/
inductive DeliveryMode where
  | immediate
  | batched
  deriving DecidableEq, Repr

/-- Modelled from the spec (section 3): per-destination-type batching policy. -/
structure Policy where
  maxBatchSize : Nat
  maxWaitTimeMs : Nat
  deliveryMode : DeliveryMode
  deriving DecidableEq, Repr

/-- Modelled from the spec (sections 3 and 6): default policy per destination
type — HTTP and push-channel (and email, re-emit) immediate with batch size 1
and near-zero wait; object storage batched with a size and time ceiling. -/
def defaultPolicy : DestType → Policy
  | .http => ⟨1, 0, .immediate⟩
  | .objectStorage => ⟨100, 5000, .batched⟩
  | .email => ⟨1, 0, .immediate⟩
  | .pushChannel => ⟨1, 0, .immediate⟩
  | .reEmit => ⟨1, 0, .immediate⟩

/-- Modelled from the spec (section 6): per-call batching-policy override
`{ maxBatchSize, maxWaitTimeMs }`. -/
structure PolicyOverride where
  maxBatchSize : Nat
  maxWaitTimeMs : Nat
  deriving DecidableEq, Repr

/-- Modelled from the spec (section 6): an omitted override leaves the
destination type's default; an override replaces the size and wait ceilings
(the delivery mode stays the type's own). -/
def applyOverride (p : Policy) : Option PolicyOverride → Policy
  | none => p
  | some o => { p with maxBatchSize := o.maxBatchSize, maxWaitTimeMs := o.maxWaitTimeMs }

/-- Modelled from the spec (section 4.2): `immediate` mode is the degenerate
case `maxBatchSize = 1`; the effective size threshold of a policy. -/
def Policy.effMaxSize (p : Policy) : Nat :=
  match p.deliveryMode with
  | .immediate => 1
  | .batched => p.maxBatchSize

/-- Modelled from the spec (section 6): required `destinationConfig` fields
per destination type (re-emit is special-cased below). -/
def requiredFields : DestType → List String
  | .http => ["method", "url"]
  | .objectStorage => ["bucket", "keyTemplate", "format"]
  | .email => ["to", "subject"]
  | .pushChannel => ["channelId", "eventName"]
  | .reEmit => []

/-- Field presence in a config association list. -/
def hasField (cfg : List (String × JSVal)) (k : String) : Bool :=
  cfg.any (fun kv => decide (kv.1 = k))

/-- Field lookup in a config association list (`undefined` when absent). -/
def lookupField (cfg : List (String × JSVal)) (k : String) : JSVal :=
  match cfg.find? (fun kv => decide (kv.1 = k)) with
  | some kv => kv.2
  | none => .vundefined

/-- Modelled from the spec (sections 4.1 and 6): a config is valid when every
required field for the type is present; re-emit needs `targetExecutionId` or
`targetListenerId`. -/
def configValid (dt : DestType) (cfg : List (String × JSVal)) : Bool :=
  match dt with
  | .reEmit => hasField cfg "targetExecutionId" || hasField cfg "targetListenerId"
  | dt => (requiredFields dt).all (hasField cfg)

mutual

/-- Modelled from the spec (section 3): structural serializability of a
payload — no function values (cyclic references cannot arise in the
inductive value model). -/
def serializable : JSVal → Bool
  | .vfunc _ => false
  | .varr xs => serializableList xs
  | .vobj fs => serializableFields fs
  | _ => true

/-- Serializability of every element of an array. -/
def serializableList : List JSVal → Bool
  | [] => true
  | x :: xs => serializable x && serializableList xs

/-- Serializability of every field value of an object. -/
def serializableFields : List (String × JSVal) → Bool
  | [] => true
  | kv :: fs => serializable kv.2 && serializableFields fs

end

/-- Shallow rendering of an identifying config value into a key string. -/
def keyPart : JSVal → String
  | .vstr s => s
  | .vnum n => jsNumToString n
  | .vbool b => toString b
  | .vnull => "null"
  | .vundefined => "undefined"
  | .varr _ => "array"
  | .vobj _ => "object"
  | .vfunc _ => "function"

/-- Modelled from the spec (section 3): a Destination Key — the destination
type plus a stable identifying rendering of part of the config. -/
structure DestKey where
  dtype : DestType
  target : String
  deriving DecidableEq, Repr

/-- Modelled from the spec (section 3): Destination Key derivation — URL for
http, bucket plus key template for object storage, recipient for email,
channel for push, target execution or listener for re-emit. -/
def destKeyOf (dt : DestType) (cfg : List (String × JSVal)) : DestKey :=
  match dt with
  | .http => ⟨dt, keyPart (lookupField cfg "url")⟩
  | .objectStorage =>
      ⟨dt, keyPart (lookupField cfg "bucket") ++ "/" ++ keyPart (lookupField cfg "keyTemplate")⟩
  | .email => ⟨dt, keyPart (lookupField cfg "to")⟩
  | .pushChannel => ⟨dt, keyPart (lookupField cfg "channelId")⟩
  | .reEmit =>
      ⟨dt, keyPart (lookupField cfg "targetExecutionId") ++ "/"
        ++ keyPart (lookupField cfg "targetListenerId")⟩

/-- Modelled from the spec (section 3): the Event Record. -/
structure EventRecord where
  id : Nat
  executionId : Nat
  destinationType : DestType
  destinationConfig : List (String × JSVal)
  payload : JSVal
  enqueuedAt : Nat
  deriving DecidableEq, Repr

/-- Modelled from the spec (section 4.4): the Batch state machine
`Accumulating → Ready → Flushing → {Delivered | Exhausted-Failed}`. -/
inductive BatchState where
  | accumulating
  | ready
  | flushing
  | delivered
  | exhaustedFailed
  deriving DecidableEq, Repr

/-- Modelled from the spec (section 3): a Batch, together with the attempt
counter and computed next-retry timestamp of its current Delivery Attempt
cycle (section 9 asks for an explicit bounded counter). -/
structure Batch where
  batchId : Nat
  destinationKey : DestKey
  policy : Policy
  records : List EventRecord
  state : BatchState
  createdAt : Nat
  flushDeadline : Nat
  attemptNumber : Nat
  nextRetryAt : Nat
  deriving DecidableEq, Repr

/-- Modelled from the spec (sections 2, 5): the shared state — the
Destination Key → open-Batch map, the dispatcher's FIFO of Ready batches, the
in-flight (Flushing) batches, the terminal batches in completion order, the
clock, and id counters. -/
structure SysState where
  openBatches : List (DestKey × Batch)
  dispatchQueue : List (DestKey × Batch)
  inflight : List (DestKey × Batch)
  terminal : List (DestKey × Batch)
  now : Nat
  nextBatchId : Nat
  nextRecordId : Nat

/-- The initial state: nothing buffered, clock at zero. -/
def initState : SysState := ⟨[], [], [], [], 0, 0, 0⟩

/-- Every batch entry a state holds, in any stage of the lifecycle. -/
def allEntries (s : SysState) : List (DestKey × Batch) :=
  s.openBatches ++ s.dispatchQueue ++ s.inflight ++ s.terminal

/-- Modelled from the spec (section 7): the validation error taxonomy
surfaced synchronously by `send`. -/
inductive ValidationError where
  | payloadNotSerializable
  | unknownDestinationType (s : String)
  | missingConfigFields (dt : DestType)
  deriving DecidableEq, Repr

/-- Modelled from the spec (sections 4.1, 6): the arguments of a
`send`/`enqueue` call. -/
structure SendArgs where
  executionId : Nat
  destinationType : String
  destinationConfig : List (String × JSVal)
  payload : JSVal
  override : Option PolicyOverride
  deriving DecidableEq, Repr

/-- Modelled from the spec (section 4.1): synchronous validation — the
payload must be serializable, the destination type known, and the config
complete for that type. -/
def validate (a : SendArgs) : Except ValidationError DestType :=
  if serializable a.payload = false then .error .payloadNotSerializable
  else
    match parseDestType a.destinationType with
    | none => .error (.unknownDestinationType a.destinationType)
    | some dt =>
        if configValid dt a.destinationConfig = false then .error (.missingConfigFields dt)
        else .ok dt

/-- The boolean form of successful validation. -/
def validArgs (a : SendArgs) : Bool :=
  serializable a.payload &&
    (match parseDestType a.destinationType with
      | none => false
      | some dt => configValid dt a.destinationConfig)

/-- Modelled from the spec (section 3): the Event Record an accepted enqueue
creates at a given state. -/
def mkRecord (s : SysState) (a : SendArgs) (dt : DestType) : EventRecord :=
  ⟨s.nextRecordId, a.executionId, dt, a.destinationConfig, a.payload, s.now⟩

/-- Modelled from the spec (section 3): lazy Batch creation on first enqueue
for a key with no open batch. -/
def newBatch (s : SysState) (k : DestKey) (p : Policy) (r : EventRecord) : Batch :=
  ⟨s.nextBatchId, k, p, [r], .accumulating, s.now, s.now + p.maxWaitTimeMs, 0, 0⟩

/-- Modelled from the spec (section 4.2): size readiness
`records.length ≥ maxBatchSize` (with immediate's degenerate threshold 1). -/
def batchFull (b : Batch) : Bool :=
  decide (b.policy.effMaxSize ≤ b.records.length)

/-- Modelled from the spec (section 4.2): time readiness
`now - createdAt ≥ maxWaitTimeMs`. -/
def batchTimedOut (b : Batch) (now : Nat) : Bool :=
  decide (b.policy.maxWaitTimeMs ≤ now - b.createdAt)

/-- The open batch for a key, if any. -/
def getOpen (s : SysState) (k : DestKey) : Option Batch :=
  match s.openBatches.find? (fun kb => decide (kb.1 = k)) with
  | some kb => some kb.2
  | none => none

/-- Remove a key's entries from the open-batch map. -/
def removeOpen (l : List (DestKey × Batch)) (k : DestKey) : List (DestKey × Batch) :=
  l.filter (fun kb => !decide (kb.1 = k))

/-- The batch an accepted enqueue appends to: the key's open batch with the
new record appended, or a lazily created batch holding just the record. -/
def appendedBatch (s : SysState) (a : SendArgs) (dt : DestType) : Batch :=
  let k := destKeyOf dt a.destinationConfig
  match getOpen s k with
  | some b0 => { b0 with records := b0.records ++ [mkRecord s a dt] }
  | none => newBatch s k (applyOverride (defaultPolicy dt) a.override) (mkRecord s a dt)

/-- Modelled from the spec (sections 4.1-4.2): the state change of an
accepted enqueue — append the Event Record to the key's open batch (created
lazily), evaluate readiness after the append, and on readiness mark the batch
Ready and hand it to the dispatcher queue. -/
def enqueueCore (s : SysState) (a : SendArgs) (dt : DestType) : SysState :=
  let k := destKeyOf dt a.destinationConfig
  let b := appendedBatch s a dt
  let s1 :=
    { s with
      openBatches := removeOpen s.openBatches k
      nextRecordId := s.nextRecordId + 1
      nextBatchId := s.nextBatchId + 1 }
  if batchFull b || batchTimedOut b s.now then
    { s1 with dispatchQueue := s1.dispatchQueue ++ [(k, { b with state := .ready })] }
  else
    { s1 with openBatches := s1.openBatches ++ [(k, b)] }

/-- Modelled from the spec (sections 4.1-4.2): `enqueue` — synchronous
validation, then the pure in-memory state change; no delivery work happens
inside the call. -/
def enqueue (s : SysState) (a : SendArgs) : Except ValidationError SysState :=
  match validate a with
  | .error e => .error e
  | .ok dt => .ok (enqueueCore s a dt)

/-- Modelled from the spec (section 4.3): the admission-control pick — the
first queued Ready batch whose Destination Key has no in-flight batch;
batches whose key is busy stay queued in order. -/
def pickEligible (busy : List DestKey) :
    List (DestKey × Batch) → Option ((DestKey × Batch) × List (DestKey × Batch))
  | [] => none
  | kb :: rest =>
      if decide (kb.1 ∈ busy) then
        match pickEligible busy rest with
        | none => none
        | some (picked, rest') => some (picked, kb :: rest')
      else
        some (kb, rest)

/-- Modelled from the spec (section 4.3): dispatch one eligible Ready batch
into the Flushing state, starting its first Delivery Attempt. -/
def dispatchStep (s : SysState) : SysState :=
  match pickEligible (s.inflight.map Prod.fst) s.dispatchQueue with
  | none => s
  | some ((k, b), rest) =>
      { s with
        dispatchQueue := rest
        inflight := s.inflight ++ [(k, { b with state := .flushing, attemptNumber := 1 })] }

/-- Modelled from the spec (section 4.3): the background timer check,
independent of enqueue calls — advance the clock and force overdue open
batches Ready. -/
def tick (s : SysState) (t : Nat) : SysState :=
  let now := max s.now t
  let due := s.openBatches.filter (fun kb => batchTimedOut kb.2 now)
  let rest := s.openBatches.filter (fun kb => !batchTimedOut kb.2 now)
  { s with
    now := now
    openBatches := rest
    dispatchQueue :=
      s.dispatchQueue ++ due.map (fun kb => (kb.1, { kb.2 with state := BatchState.ready })) }

/-- Does a batch contain a record of the given execution? -/
def batchHasExecution (b : Batch) (eid : Nat) : Bool :=
  b.records.any (fun r => decide (r.executionId = eid))

/-- Modelled from the spec (section 4.2): `forceFlushForExecution` — mark
every open batch containing at least one record of the execution Ready,
regardless of size and time thresholds, and hand those to the dispatcher. -/
def forceFlushForExecution (s : SysState) (eid : Nat) : SysState :=
  let hit := s.openBatches.filter (fun kb => batchHasExecution kb.2 eid)
  let rest := s.openBatches.filter (fun kb => !batchHasExecution kb.2 eid)
  { s with
    openBatches := rest
    dispatchQueue :=
      s.dispatchQueue ++ hit.map (fun kb => (kb.1, { kb.2 with state := BatchState.ready })) }

/-- Modelled from the spec (section 4.4): worker outcome classification —
success, transient failure (network, 5xx, throttling), permanent failure
(4xx, malformed config). -/
inductive Outcome where
  | success
  | transient
  | permanent
  deriving DecidableEq, Repr

/-- Modelled from the spec (section 4.4): the bounded attempt count for
transient retries (the spec fixes no concrete number; five attempts). -/
def maxAttempts : Nat := 5

/-- Modelled from the spec (section 4.4): base delay of the exponential
backoff (the spec fixes no concrete number; one second). -/
def baseBackoffMs : Nat := 1000

/-- Modelled from the spec (sections 4.4, 9): exponential backoff — the delay
before retry number `attempt + 1` after `attempt` failed attempts. -/
def backoffMs (attempt : Nat) : Nat := baseBackoffMs * 2 ^ (attempt - 1)

/-- Remove the first entry of a key from an in-flight list. -/
def removeFirstKey : List (DestKey × Batch) → DestKey → List (DestKey × Batch)
  | [], _ => []
  | kb :: rest, k => if kb.1 = k then rest else kb :: removeFirstKey rest k

/-- Replace the batch of the first entry of a key in an in-flight list. -/
def replaceFirstKey : List (DestKey × Batch) → DestKey → Batch → List (DestKey × Batch)
  | [], _, _ => []
  | kb :: rest, k, b => if kb.1 = k then (k, b) :: rest else kb :: replaceFirstKey rest k b

/-- Modelled from the spec (section 4.4): the worker reports the outcome of
the in-flight Delivery Attempt for a key. Success → Delivered; permanent
failure → Exhausted-Failed with no retry; transient failure → retried with
exponential backoff while the bounded attempt count allows, else
Exhausted-Failed. -/
def workerResult (s : SysState) (k : DestKey) (o : Outcome) : SysState :=
  match s.inflight.find? (fun kb => decide (kb.1 = k)) with
  | none => s
  | some kb =>
      let b := kb.2
      match o with
      | .success =>
          { s with
            inflight := removeFirstKey s.inflight k
            terminal := s.terminal ++ [(k, { b with state := .delivered })] }
      | .permanent =>
          { s with
            inflight := removeFirstKey s.inflight k
            terminal := s.terminal ++ [(k, { b with state := .exhaustedFailed })] }
      | .transient =>
          if b.attemptNumber < maxAttempts then
            { s with
              inflight := replaceFirstKey s.inflight k
                { b with
                  attemptNumber := b.attemptNumber + 1
                  nextRetryAt := s.now + backoffMs b.attemptNumber } }
          else
            { s with
              inflight := removeFirstKey s.inflight k
              terminal := s.terminal ++ [(k, { b with state := .exhaustedFailed })] }

/-- Modelled from the spec (sections 4-6): the events driving the system —
producer enqueues, timer ticks, dispatcher scheduling, worker outcome
reports, and execution-completion signals. -/
inductive Ev where
  | enq (a : SendArgs)
  | tick (t : Nat)
  | dispatch
  | result (k : DestKey) (o : Outcome)
  | complete (eid : Nat)

/-- Modelled from the spec: one step of the delivery system; a rejected
enqueue (ValidationError) leaves the state unchanged. -/
def step (s : SysState) (e : Ev) : SysState :=
  match e with
  | .enq a =>
      match enqueue s a with
      | .ok s' => s'
      | .error _ => s
  | .tick t => tick s t
  | .dispatch => dispatchStep s
  | .result k o => workerResult s k o
  | .complete eid => forceFlushForExecution s eid

/-- Run a sequence of events from a state. -/
def run (s : SysState) (evs : List Ev) : SysState := evs.foldl step s

/-! #### Per-key projections and basic lemmas -/

/-- The entries of one Destination Key, in list order. -/
def entriesOfKey (k : DestKey) (l : List (DestKey × Batch)) : List (DestKey × Batch) :=
  l.filter (fun kb => decide (kb.1 = k))

/-- The records of one Destination Key's entries, concatenated in list
order. -/
def recsOfKey (k : DestKey) (l : List (DestKey × Batch)) : List EventRecord :=
  ((entriesOfKey k l).map (fun kb => kb.2.records)).flatten

/-- All records a state holds for one Destination Key, ordered oldest first:
terminal batches in completion order, then the in-flight batch, then the
dispatcher queue, then the open batch. -/
def histSeq (k : DestKey) (s : SysState) : List EventRecord :=
  recsOfKey k s.terminal ++ recsOfKey k s.inflight ++ recsOfKey k s.dispatchQueue
    ++ recsOfKey k s.openBatches

theorem entriesOfKey_append (k : DestKey) (l m : List (DestKey × Batch)) :
    entriesOfKey k (l ++ m) = entriesOfKey k l ++ entriesOfKey k m := by
  simp [entriesOfKey]

theorem recsOfKey_append (k : DestKey) (l m : List (DestKey × Batch)) :
    recsOfKey k (l ++ m) = recsOfKey k l ++ recsOfKey k m := by
  simp [recsOfKey, entriesOfKey_append]

theorem recsOfKey_nil (k : DestKey) : recsOfKey k [] = [] := rfl

theorem recsOfKey_singleton (k k' : DestKey) (b : Batch) :
    recsOfKey k [(k', b)] = if k' = k then b.records else [] := by
  by_cases h : k' = k <;> simp [recsOfKey, entriesOfKey, h]

theorem recsOfKey_removeOpen_ne (k k0 : DestKey) (l : List (DestKey × Batch)) (h : k ≠ k0) :
    recsOfKey k (removeOpen l k0) = recsOfKey k l := by
  unfold recsOfKey entriesOfKey removeOpen
  rw [List.filter_filter]
  have heq : List.filter (fun a => decide (a.1 = k) && !decide (a.1 = k0)) l
      = List.filter (fun kb => decide (kb.1 = k)) l := by
    apply List.filter_congr
    intro kb _
    by_cases hk : kb.1 = k
    · simp [hk]
      exact h
    · simp [hk]
  rw [heq]

theorem recsOfKey_removeOpen_self (k : DestKey) (l : List (DestKey × Batch)) :
    recsOfKey k (removeOpen l k) = [] := by
  unfold recsOfKey entriesOfKey removeOpen
  rw [List.filter_filter]
  have : ∀ kb : DestKey × Batch, (decide (kb.1 = k) && !decide (kb.1 = k)) = false := by
    intro kb; by_cases hk : kb.1 = k <;> simp [hk]
  simp [this]

/-- `recsOfKey` ignores a per-entry batch map that keeps keys and records. -/
theorem recsOfKey_map_records_eq (k : DestKey) (l : List (DestKey × Batch))
    (f : Batch → Batch) (hf : ∀ b, (f b).records = b.records) :
    recsOfKey k (l.map (fun kb => (kb.1, f kb.2))) = recsOfKey k l := by
  induction l with
  | nil => rfl
  | cons kb rest ih =>
      by_cases hk : kb.1 = k
      · simp [recsOfKey, entriesOfKey, List.filter_cons, hk, hf] at ih ⊢
        exact ih
      · simp [recsOfKey, entriesOfKey, List.filter_cons, hk] at ih ⊢
        exact ih

theorem find?_none_entriesOfKey (k : DestKey) (l : List (DestKey × Batch))
    (h : l.find? (fun kb => decide (kb.1 = k)) = none) :
    entriesOfKey k l = [] := by
  rw [List.find?_eq_none] at h
  unfold entriesOfKey
  rw [List.filter_eq_nil]
  intro kb hkb
  exact h kb hkb

theorem find?_some_key (k : DestKey) (l : List (DestKey × Batch)) (kb : DestKey × Batch)
    (h : l.find? (fun x => decide (x.1 = k)) = some kb) : kb.1 = k := by
  have := List.find?_some h
  simpa using this

theorem find?_some_mem (k : DestKey) (l : List (DestKey × Batch)) (kb : DestKey × Batch)
    (h : l.find? (fun x => decide (x.1 = k)) = some kb) : kb ∈ l :=
  List.mem_of_find?_eq_some h

/-- With unique keys, the entries of a found key are exactly the found
entry. -/
theorem entriesOfKey_eq_of_find?_nodup (k : DestKey) (l : List (DestKey × Batch))
    (kb0 : DestKey × Batch) (hnd : (l.map Prod.fst).Nodup)
    (h : l.find? (fun kb => decide (kb.1 = k)) = some kb0) :
    entriesOfKey k l = [kb0] := by
  induction l with
  | nil => simp [List.find?] at h
  | cons kb rest ih =>
      by_cases hk : kb.1 = k
      · rw [List.find?_cons_of_pos _ (by simpa using hk)] at h
        cases h
        have hrest : entriesOfKey k rest = [] := by
          unfold entriesOfKey
          rw [List.filter_eq_nil]
          intro x hx
          simp only [decide_eq_true_eq]
          intro hxk
          simp only [List.map_cons, List.nodup_cons] at hnd
          exact hnd.1 (by rw [hk, ← hxk]; exact List.mem_map_of_mem Prod.fst hx)
        simp [entriesOfKey, List.filter_cons, hk] at hrest ⊢
        exact hrest
      · rw [List.find?_cons_of_neg _ (by simpa using hk)] at h
        simp only [List.map_cons, List.nodup_cons] at hnd
        have := ih hnd.2 h
        simpa [entriesOfKey, List.filter_cons, hk] using this

theorem filter_eq_self_of_not_memKey (k : DestKey) (l : List (DestKey × Batch))
    (h : k ∉ l.map Prod.fst) :
    l.filter (fun kb => !decide (kb.1 = k)) = l := by
  rw [List.filter_eq_self]
  intro kb hkb
  simp only [Bool.not_eq_eq_eq_not, Bool.not_true, decide_eq_false_iff_not]
  intro hk
  exact h (hk ▸ List.mem_map_of_mem Prod.fst hkb)

theorem removeFirstKey_eq_removeOpen (k : DestKey) (l : List (DestKey × Batch))
    (hnd : (l.map Prod.fst).Nodup) :
    removeFirstKey l k = removeOpen l k := by
  induction l with
  | nil => rfl
  | cons kb rest ih =>
      simp only [List.map_cons, List.nodup_cons] at hnd
      by_cases hk : kb.1 = k
      · have hrest : List.filter (fun kb => !decide (kb.1 = k)) rest = rest :=
          filter_eq_self_of_not_memKey k rest (hk ▸ hnd.1)
        simp [removeFirstKey, removeOpen, List.filter_cons, hk, hrest]
      · have := ih hnd.2
        unfold removeOpen at this
        simp [removeFirstKey, removeOpen, List.filter_cons, hk, this]

theorem map_fst_replaceFirstKey (k : DestKey) (b : Batch) (l : List (DestKey × Batch)) :
    (replaceFirstKey l k b).map Prod.fst = l.map Prod.fst := by
  induction l with
  | nil => rfl
  | cons kb rest ih =>
      by_cases hk : kb.1 = k
      · simp [replaceFirstKey, hk]
      · simp [replaceFirstKey, hk, ih]

theorem entriesOfKey_replaceFirstKey_ne (k k' : DestKey) (b : Batch)
    (l : List (DestKey × Batch)) (h : k' ≠ k) :
    entriesOfKey k' (replaceFirstKey l k b) = entriesOfKey k' l := by
  induction l with
  | nil => rfl
  | cons kb rest ih =>
      by_cases hk : kb.1 = k
      · have h1 : ¬ (k = k') := fun hh => h hh.symm
        have h2 : ¬ (kb.1 = k') := by rw [hk]; exact h1
        simp [replaceFirstKey, hk, entriesOfKey, List.filter_cons, h1, h2]
      · unfold entriesOfKey at ih
        simp [replaceFirstKey, hk, entriesOfKey, List.filter_cons, ih]

theorem recsOfKey_replaceFirstKey_ne (k k' : DestKey) (b : Batch)
    (l : List (DestKey × Batch)) (h : k' ≠ k) :
    recsOfKey k' (replaceFirstKey l k b) = recsOfKey k' l := by
  unfold recsOfKey
  rw [entriesOfKey_replaceFirstKey_ne k k' b l h]

theorem entriesOfKey_replaceFirstKey_self (k : DestKey) (b : Batch)
    (l : List (DestKey × Batch)) (kb0 : DestKey × Batch)
    (hnd : (l.map Prod.fst).Nodup)
    (h : l.find? (fun kb => decide (kb.1 = k)) = some kb0) :
    entriesOfKey k (replaceFirstKey l k b) = [(k, b)] := by
  induction l with
  | nil => simp [List.find?] at h
  | cons kb rest ih =>
      simp only [List.map_cons, List.nodup_cons] at hnd
      by_cases hk : kb.1 = k
      · simp only [replaceFirstKey, if_pos hk]
        have hrest : entriesOfKey k rest = [] := by
          unfold entriesOfKey
          rw [List.filter_eq_nil_iff]
          intro x hx
          simp only [decide_eq_true_eq]
          intro hxk
          exact hnd.1 (hk ▸ hxk ▸ List.mem_map_of_mem Prod.fst hx)
        simp [entriesOfKey, List.filter_cons] at hrest ⊢
        exact hrest
      · rw [List.find?_cons_of_neg _ (by simpa using hk)] at h
        simp only [replaceFirstKey, if_neg hk]
        have := ih hnd.2 h
        simpa [entriesOfKey, List.filter_cons, hk] using this

theorem find?_replaceFirstKey_self (k : DestKey) (b : Batch)
    (l : List (DestKey × Batch)) (kb0 : DestKey × Batch)
    (h : l.find? (fun kb => decide (kb.1 = k)) = some kb0) :
    (replaceFirstKey l k b).find? (fun kb => decide (kb.1 = k)) = some (k, b) := by
  induction l with
  | nil => simp [List.find?] at h
  | cons kb rest ih =>
      by_cases hk : kb.1 = k
      · simp [replaceFirstKey, hk, List.find?]
      · rw [List.find?_cons_of_neg _ (by simpa using hk)] at h
        simp only [replaceFirstKey, if_neg hk]
        rw [List.find?_cons_of_neg _ (by simpa using hk)]
        exact ih h

theorem find?_removeOpen_self (k : DestKey) (l : List (DestKey × Batch)) :
    (removeOpen l k).find? (fun kb => decide (kb.1 = k)) = none := by
  rw [List.find?_eq_none]
  intro kb hkb
  unfold removeOpen at hkb
  have := List.of_mem_filter hkb
  simpa using this

/-- Admission-control pick: the picked batch's key is idle, the pick is the
head of its key's FIFO subqueue, and every other key's subqueue is
untouched. -/
theorem pickEligible_spec (busy : List DestKey) :
    ∀ (q : List (DestKey × Batch)) (picked : DestKey × Batch)
      (rest' : List (DestKey × Batch)),
    pickEligible busy q = some (picked, rest') →
    picked.1 ∉ busy
    ∧ entriesOfKey picked.1 q = picked :: entriesOfKey picked.1 rest'
    ∧ (∀ k', k' ≠ picked.1 → entriesOfKey k' q = entriesOfKey k' rest')
    ∧ (∀ x ∈ rest', x ∈ q) := by
  intro q
  induction q with
  | nil => intro picked rest' h; simp [pickEligible] at h
  | cons kb rest ih =>
      intro picked rest' h
      by_cases hb : kb.1 ∈ busy
      · rw [pickEligible, if_pos (by simpa using hb)] at h
        rcases hrec : pickEligible busy rest with _ | ⟨p, r'⟩
        · rw [hrec] at h; simp at h
        · rw [hrec] at h
          simp only [Option.some.injEq, Prod.mk.injEq] at h
          obtain ⟨hp, hr⟩ := h
          subst hp
          subst hr
          obtain ⟨h1, h2, h3, h4⟩ := ih p r' hrec
          have hne : kb.1 ≠ p.1 := fun hh => h1 (hh ▸ hb)
          refine ⟨h1, ?_, ?_, ?_⟩
          · unfold entriesOfKey at h2 ⊢
            simpa [List.filter_cons, hne] using h2
          · intro k' hk'
            have h3' := h3 k' hk'
            unfold entriesOfKey at h3' ⊢
            by_cases hkk : kb.1 = k'
            · simp [List.filter_cons, hkk, h3']
            · simp [List.filter_cons, hkk, h3']
          · intro x hx
            rcases List.mem_cons.mp hx with hx | hx
            · exact hx ▸ List.mem_cons_self kb rest
            · exact List.mem_cons_of_mem kb (h4 x hx)
      · rw [pickEligible, if_neg (by simpa using hb)] at h
        simp only [Option.some.injEq, Prod.mk.injEq] at h
        obtain ⟨hp, hr⟩ := h
        subst hp
        subst hr
        refine ⟨hb, by simp [entriesOfKey, List.filter_cons], ?_, ?_⟩
        · intro k' hk'
          have hne : ¬ (kb.1 = k') := fun hh => hk' hh.symm
          simp [entriesOfKey, List.filter_cons, hne]
        · intro x hx
          exact List.mem_cons_of_mem kb hx

theorem pickEligible_mem (busy : List DestKey) (q : List (DestKey × Batch))
    (picked : DestKey × Batch) (rest' : List (DestKey × Batch))
    (h : pickEligible busy q = some (picked, rest')) : picked ∈ q := by
  have h2 := (pickEligible_spec busy q picked rest' h).2.1
  have : picked ∈ entriesOfKey picked.1 q := by
    rw [h2]; exact List.mem_cons_self _ _
  exact List.mem_of_mem_filter this

theorem removeFirstKey_sublist (k : DestKey) (l : List (DestKey × Batch)) :
    (removeFirstKey l k).Sublist l := by
  induction l with
  | nil => simp [removeFirstKey]
  | cons kb rest ih =>
      by_cases hk : kb.1 = k
      · simp only [removeFirstKey, if_pos hk]
        exact (List.sublist_cons_self kb rest)
      · simp only [removeFirstKey, if_neg hk]
        exact List.Sublist.cons₂ kb ih

theorem mem_replaceFirstKey (k : DestKey) (b : Batch) (l : List (DestKey × Batch))
    (x : DestKey × Batch) (hx : x ∈ replaceFirstKey l k b) : x ∈ l ∨ x = (k, b) := by
  induction l with
  | nil => simp [replaceFirstKey] at hx
  | cons kb rest ih =>
      by_cases hk : kb.1 = k
      · simp only [replaceFirstKey, if_pos hk] at hx
        rcases List.mem_cons.mp hx with hx | hx
        · exact Or.inr hx
        · exact Or.inl (List.mem_cons_of_mem kb hx)
      · simp only [replaceFirstKey, if_neg hk] at hx
        rcases List.mem_cons.mp hx with hx | hx
        · exact Or.inl (hx ▸ List.mem_cons_self kb rest)
        · rcases ih hx with h | h
          · exact Or.inl (List.mem_cons_of_mem kb h)
          · exact Or.inr h

theorem applyOverride_mode (p : Policy) (o : Option PolicyOverride) :
    (applyOverride p o).deliveryMode = p.deliveryMode := by
  cases o <;> rfl

theorem destKeyOf_dtype (dt : DestType) (cfg : List (String × JSVal)) :
    (destKeyOf dt cfg).dtype = dt := by
  cases dt <;> rfl

theorem map_fst_removeOpen_nodup (k : DestKey) (l : List (DestKey × Batch))
    (h : (l.map Prod.fst).Nodup) : ((removeOpen l k).map Prod.fst).Nodup :=
  ((List.filter_sublist l).map Prod.fst).nodup h

theorem not_mem_map_fst_removeOpen (k : DestKey) (l : List (DestKey × Batch)) :
    k ∉ (removeOpen l k).map Prod.fst := by
  intro hk
  rcases List.mem_map.mp hk with ⟨kb, hkb, hfst⟩
  have := List.of_mem_filter hkb
  simp [hfst] at this

theorem mem_removeOpen (k : DestKey) (l : List (DestKey × Batch)) (x : DestKey × Batch)
    (hx : x ∈ removeOpen l k) : x ∈ l := List.mem_of_mem_filter hx

theorem getOpen_some_mem (s : SysState) (k : DestKey) (b0 : Batch)
    (h : getOpen s k = some b0) : (k, b0) ∈ s.openBatches := by
  unfold getOpen at h
  rcases hf : s.openBatches.find? (fun kb => decide (kb.1 = k)) with _ | kb
  · rw [hf] at h; simp at h
  · rw [hf] at h
    simp only [Option.some.injEq] at h
    have hkey := find?_some_key k _ kb hf
    have hmem := find?_some_mem k _ kb hf
    have : kb = (k, b0) := by
      cases kb with
      | mk k' b' => simp only at hkey h; rw [hkey, h]
    exact this ▸ hmem

/-! #### The well-formedness invariant -/

/-- Well-formedness of a delivery-system state; `initState` satisfies it and
`step` preserves it. -/
structure WF (s : SysState) : Prop where
  openKeys : (s.openBatches.map Prod.fst).Nodup
  inflightKeys : (s.inflight.map Prod.fst).Nodup
  openNotFull : ∀ kb ∈ s.openBatches, kb.2.records.length < kb.2.policy.effMaxSize
  sizeBound : ∀ kb ∈ allEntries s, kb.2.records.length ≤ max 1 kb.2.policy.effMaxSize
  recNonempty : ∀ kb ∈ allEntries s, kb.2.records ≠ []
  policyMode : ∀ kb ∈ allEntries s,
      kb.2.policy.deliveryMode = (defaultPolicy kb.1.dtype).deliveryMode
  attemptBound : ∀ kb ∈ s.inflight, kb.2.attemptNumber ≤ maxAttempts
  inflightFlushing : ∀ kb ∈ s.inflight, kb.2.state = BatchState.flushing

theorem WF_initState : WF initState := by
  constructor <;> simp [initState, allEntries]

theorem mem_allEntries (s : SysState) (kb : DestKey × Batch) :
    kb ∈ allEntries s ↔
      kb ∈ s.openBatches ∨ kb ∈ s.dispatchQueue ∨ kb ∈ s.inflight ∨ kb ∈ s.terminal := by
  simp [allEntries, List.mem_append, or_assoc]

/-- `step` on a splitting of the open map: WF is preserved when overdue or
force-flushed open batches move, Ready, to the back of the dispatch queue. -/
theorem WF_splitOpen (s : SysState) (hw : WF s) (p : DestKey × Batch → Bool) (now' : Nat) :
    WF { s with
      now := now'
      openBatches := s.openBatches.filter (fun kb => !p kb)
      dispatchQueue := s.dispatchQueue ++
        (s.openBatches.filter p).map (fun kb => (kb.1, { kb.2 with state := BatchState.ready })) } := by
  have hsub : ∀ kb ∈ s.openBatches.filter (fun kb => !p kb), kb ∈ s.openBatches :=
    fun kb hkb => List.mem_of_mem_filter hkb
  have hqmem : ∀ kb ∈ s.dispatchQueue ++
      (s.openBatches.filter p).map (fun kb => (kb.1, { kb.2 with state := BatchState.ready })),
      kb ∈ s.dispatchQueue ∨
        ∃ kb0 ∈ s.openBatches, kb = (kb0.1, { kb0.2 with state := BatchState.ready }) := by
    intro kb hkb
    rcases List.mem_append.mp hkb with h | h
    · exact Or.inl h
    · rcases List.mem_map.mp h with ⟨kb0, hkb0, hmap⟩
      exact Or.inr ⟨kb0, List.mem_of_mem_filter hkb0, hmap.symm⟩
  constructor
  · exact ((List.filter_sublist s.openBatches).map Prod.fst).nodup hw.openKeys
  · exact hw.inflightKeys
  · intro kb hkb
    exact hw.openNotFull kb (hsub kb hkb)
  · intro kb hkb
    rcases (mem_allEntries _ kb).mp hkb with h | h | h | h
    · exact hw.sizeBound kb ((mem_allEntries s kb).mpr (Or.inl (hsub kb h)))
    · rcases hqmem kb h with h | ⟨kb0, hkb0, rfl⟩
      · exact hw.sizeBound kb ((mem_allEntries s kb).mpr (Or.inr (Or.inl h)))
      · simpa using hw.sizeBound kb0 ((mem_allEntries s kb0).mpr (Or.inl hkb0))
    · exact hw.sizeBound kb ((mem_allEntries s kb).mpr (Or.inr (Or.inr (Or.inl h))))
    · exact hw.sizeBound kb ((mem_allEntries s kb).mpr (Or.inr (Or.inr (Or.inr h))))
  · intro kb hkb
    rcases (mem_allEntries _ kb).mp hkb with h | h | h | h
    · exact hw.recNonempty kb ((mem_allEntries s kb).mpr (Or.inl (hsub kb h)))
    · rcases hqmem kb h with h | ⟨kb0, hkb0, rfl⟩
      · exact hw.recNonempty kb ((mem_allEntries s kb).mpr (Or.inr (Or.inl h)))
      · simpa using hw.recNonempty kb0 ((mem_allEntries s kb0).mpr (Or.inl hkb0))
    · exact hw.recNonempty kb ((mem_allEntries s kb).mpr (Or.inr (Or.inr (Or.inl h))))
    · exact hw.recNonempty kb ((mem_allEntries s kb).mpr (Or.inr (Or.inr (Or.inr h))))
  · intro kb hkb
    rcases (mem_allEntries _ kb).mp hkb with h | h | h | h
    · exact hw.policyMode kb ((mem_allEntries s kb).mpr (Or.inl (hsub kb h)))
    · rcases hqmem kb h with h | ⟨kb0, hkb0, rfl⟩
      · exact hw.policyMode kb ((mem_allEntries s kb).mpr (Or.inr (Or.inl h)))
      · simpa using hw.policyMode kb0 ((mem_allEntries s kb0).mpr (Or.inl hkb0))
    · exact hw.policyMode kb ((mem_allEntries s kb).mpr (Or.inr (Or.inr (Or.inl h))))
    · exact hw.policyMode kb ((mem_allEntries s kb).mpr (Or.inr (Or.inr (Or.inr h))))
  · exact hw.attemptBound
  · exact hw.inflightFlushing

theorem WF_tick (s : SysState) (hw : WF s) (t : Nat) : WF (tick s t) :=
  WF_splitOpen s hw (fun kb => batchTimedOut kb.2 (max s.now t)) (max s.now t)

theorem WF_forceFlush (s : SysState) (hw : WF s) (eid : Nat) :
    WF (forceFlushForExecution s eid) :=
  WF_splitOpen s hw (fun kb => batchHasExecution kb.2 eid) s.now

theorem WF_dispatchStep (s : SysState) (hw : WF s) : WF (dispatchStep s) := by
  unfold dispatchStep
  rcases hpick : pickEligible (s.inflight.map Prod.fst) s.dispatchQueue with _ | ⟨⟨k, b⟩, rest⟩
  · exact hw
  · obtain ⟨h1, _h2, _h3, h4⟩ := pickEligible_spec _ _ _ _ hpick
    have hmem : (k, b) ∈ s.dispatchQueue := pickEligible_mem _ _ _ _ hpick
    have hbAll : (k, b) ∈ allEntries s := (mem_allEntries s (k, b)).mpr (Or.inr (Or.inl hmem))
    constructor
    · exact hw.openKeys
    · rw [List.map_append, List.nodup_append]
      refine ⟨hw.inflightKeys, by simp, ?_⟩
      intro x hx
      simp only [List.map_cons, List.map_nil, List.mem_cons, List.not_mem_nil, or_false]
      intro hxk
      exact h1 (hxk ▸ hx)
    · exact hw.openNotFull
    · intro kb hkb
      rcases (mem_allEntries _ kb).mp hkb with h | h | h | h
      · exact hw.sizeBound kb ((mem_allEntries s kb).mpr (Or.inl h))
      · exact hw.sizeBound kb
          ((mem_allEntries s kb).mpr (Or.inr (Or.inl (h4 kb h))))
      · rcases List.mem_append.mp h with h | h
        · exact hw.sizeBound kb ((mem_allEntries s kb).mpr (Or.inr (Or.inr (Or.inl h))))
        · simp only [List.mem_cons, List.not_mem_nil, or_false] at h
          subst h
          simpa using hw.sizeBound (k, b) hbAll
      · exact hw.sizeBound kb ((mem_allEntries s kb).mpr (Or.inr (Or.inr (Or.inr h))))
    · intro kb hkb
      rcases (mem_allEntries _ kb).mp hkb with h | h | h | h
      · exact hw.recNonempty kb ((mem_allEntries s kb).mpr (Or.inl h))
      · exact hw.recNonempty kb
          ((mem_allEntries s kb).mpr (Or.inr (Or.inl (h4 kb h))))
      · rcases List.mem_append.mp h with h | h
        · exact hw.recNonempty kb ((mem_allEntries s kb).mpr (Or.inr (Or.inr (Or.inl h))))
        · simp only [List.mem_cons, List.not_mem_nil, or_false] at h
          subst h
          simpa using hw.recNonempty (k, b) hbAll
      · exact hw.recNonempty kb ((mem_allEntries s kb).mpr (Or.inr (Or.inr (Or.inr h))))
    · intro kb hkb
      rcases (mem_allEntries _ kb).mp hkb with h | h | h | h
      · exact hw.policyMode kb ((mem_allEntries s kb).mpr (Or.inl h))
      · exact hw.policyMode kb
          ((mem_allEntries s kb).mpr (Or.inr (Or.inl (h4 kb h))))
      · rcases List.mem_append.mp h with h | h
        · exact hw.policyMode kb ((mem_allEntries s kb).mpr (Or.inr (Or.inr (Or.inl h))))
        · simp only [List.mem_cons, List.not_mem_nil, or_false] at h
          subst h
          simpa using hw.policyMode (k, b) hbAll
      · exact hw.policyMode kb ((mem_allEntries s kb).mpr (Or.inr (Or.inr (Or.inr h))))
    · intro kb hkb
      rcases List.mem_append.mp hkb with h | h
      · exact hw.attemptBound kb h
      · simp only [List.mem_cons, List.not_mem_nil, or_false] at h
        subst h
        simp [maxAttempts]
    · intro kb hkb
      rcases List.mem_append.mp hkb with h | h
      · exact hw.inflightFlushing kb h
      · simp only [List.mem_cons, List.not_mem_nil, or_false] at h
        subst h
        rfl

/-- WF is preserved by moving the found in-flight batch to the back of the
terminal list with a new state, records unchanged. -/
theorem WF_finishInflight (s : SysState) (hw : WF s) (k : DestKey) (kb0 : DestKey × Batch)
    (hf : s.inflight.find? (fun kb => decide (kb.1 = k)) = some kb0) (st : BatchState) :
    WF { s with
      inflight := removeFirstKey s.inflight k
      terminal := s.terminal ++ [(k, { kb0.2 with state := st })] } := by
  have hkey : kb0.1 = k := find?_some_key _ _ _ hf
  have hmem : kb0 ∈ s.inflight := find?_some_mem _ _ _ hf
  have hAll : kb0 ∈ allEntries s :=
    (mem_allEntries s kb0).mpr (Or.inr (Or.inr (Or.inl hmem)))
  have hsubI : ∀ kb ∈ removeFirstKey s.inflight k, kb ∈ s.inflight :=
    fun kb hkb => (removeFirstKey_sublist k s.inflight).subset hkb
  constructor
  · exact hw.openKeys
  · exact ((removeFirstKey_sublist k s.inflight).map Prod.fst).nodup hw.inflightKeys
  · exact hw.openNotFull
  · intro kb hkb
    rcases (mem_allEntries _ kb).mp hkb with h | h | h | h
    · exact hw.sizeBound kb ((mem_allEntries s kb).mpr (Or.inl h))
    · exact hw.sizeBound kb ((mem_allEntries s kb).mpr (Or.inr (Or.inl h)))
    · exact hw.sizeBound kb ((mem_allEntries s kb).mpr (Or.inr (Or.inr (Or.inl (hsubI kb h)))))
    · rcases List.mem_append.mp h with h | h
      · exact hw.sizeBound kb ((mem_allEntries s kb).mpr (Or.inr (Or.inr (Or.inr h))))
      · simp only [List.mem_cons, List.not_mem_nil, or_false] at h
        subst h
        simpa using hw.sizeBound kb0 hAll
  · intro kb hkb
    rcases (mem_allEntries _ kb).mp hkb with h | h | h | h
    · exact hw.recNonempty kb ((mem_allEntries s kb).mpr (Or.inl h))
    · exact hw.recNonempty kb ((mem_allEntries s kb).mpr (Or.inr (Or.inl h)))
    · exact hw.recNonempty kb ((mem_allEntries s kb).mpr (Or.inr (Or.inr (Or.inl (hsubI kb h)))))
    · rcases List.mem_append.mp h with h | h
      · exact hw.recNonempty kb ((mem_allEntries s kb).mpr (Or.inr (Or.inr (Or.inr h))))
      · simp only [List.mem_cons, List.not_mem_nil, or_false] at h
        subst h
        simpa using hw.recNonempty kb0 hAll
  · intro kb hkb
    rcases (mem_allEntries _ kb).mp hkb with h | h | h | h
    · exact hw.policyMode kb ((mem_allEntries s kb).mpr (Or.inl h))
    · exact hw.policyMode kb ((mem_allEntries s kb).mpr (Or.inr (Or.inl h)))
    · exact hw.policyMode kb ((mem_allEntries s kb).mpr (Or.inr (Or.inr (Or.inl (hsubI kb h)))))
    · rcases List.mem_append.mp h with h | h
      · exact hw.policyMode kb ((mem_allEntries s kb).mpr (Or.inr (Or.inr (Or.inr h))))
      · simp only [List.mem_cons, List.not_mem_nil, or_false] at h
        subst h
        have := hw.policyMode kb0 hAll
        simpa [hkey] using this
  · intro kb hkb
    exact hw.attemptBound kb (hsubI kb hkb)
  · intro kb hkb
    exact hw.inflightFlushing kb (hsubI kb hkb)

theorem WF_workerResult (s : SysState) (hw : WF s) (k : DestKey) (o : Outcome) :
    WF (workerResult s k o) := by
  rcases hf : s.inflight.find? (fun kb => decide (kb.1 = k)) with _ | kb0
  · simp only [workerResult, hf]
    exact hw
  · simp only [workerResult, hf]
    have hkey : kb0.1 = k := find?_some_key _ _ _ hf
    have hmem : kb0 ∈ s.inflight := find?_some_mem _ _ _ hf
    have hAll : kb0 ∈ allEntries s :=
      (mem_allEntries s kb0).mpr (Or.inr (Or.inr (Or.inl hmem)))
    cases o with
    | success => exact WF_finishInflight s hw k kb0 hf .delivered
    | permanent => exact WF_finishInflight s hw k kb0 hf .exhaustedFailed
    | transient =>
        by_cases hatt : kb0.2.attemptNumber < maxAttempts
        · rw [if_pos hatt]
          have hrepl : ∀ kb ∈ replaceFirstKey s.inflight k
              { kb0.2 with
                attemptNumber := kb0.2.attemptNumber + 1
                nextRetryAt := s.now + backoffMs kb0.2.attemptNumber },
              kb ∈ s.inflight ∨ kb = (k,
                { kb0.2 with
                  attemptNumber := kb0.2.attemptNumber + 1
                  nextRetryAt := s.now + backoffMs kb0.2.attemptNumber }) :=
            fun kb hkb => mem_replaceFirstKey _ _ _ kb hkb
          constructor
          · exact hw.openKeys
          · rw [map_fst_replaceFirstKey]
            exact hw.inflightKeys
          · exact hw.openNotFull
          · intro kb hkb
            rcases (mem_allEntries _ kb).mp hkb with h | h | h | h
            · exact hw.sizeBound kb ((mem_allEntries s kb).mpr (Or.inl h))
            · exact hw.sizeBound kb ((mem_allEntries s kb).mpr (Or.inr (Or.inl h)))
            · rcases hrepl kb h with h | rfl
              · exact hw.sizeBound kb
                  ((mem_allEntries s kb).mpr (Or.inr (Or.inr (Or.inl h))))
              · simpa using hw.sizeBound kb0 hAll
            · exact hw.sizeBound kb ((mem_allEntries s kb).mpr (Or.inr (Or.inr (Or.inr h))))
          · intro kb hkb
            rcases (mem_allEntries _ kb).mp hkb with h | h | h | h
            · exact hw.recNonempty kb ((mem_allEntries s kb).mpr (Or.inl h))
            · exact hw.recNonempty kb ((mem_allEntries s kb).mpr (Or.inr (Or.inl h)))
            · rcases hrepl kb h with h | rfl
              · exact hw.recNonempty kb
                  ((mem_allEntries s kb).mpr (Or.inr (Or.inr (Or.inl h))))
              · simpa using hw.recNonempty kb0 hAll
            · exact hw.recNonempty kb ((mem_allEntries s kb).mpr (Or.inr (Or.inr (Or.inr h))))
          · intro kb hkb
            rcases (mem_allEntries _ kb).mp hkb with h | h | h | h
            · exact hw.policyMode kb ((mem_allEntries s kb).mpr (Or.inl h))
            · exact hw.policyMode kb ((mem_allEntries s kb).mpr (Or.inr (Or.inl h)))
            · rcases hrepl kb h with h | rfl
              · exact hw.policyMode kb
                  ((mem_allEntries s kb).mpr (Or.inr (Or.inr (Or.inl h))))
              · have := hw.policyMode kb0 hAll
                simpa [hkey] using this
            · exact hw.policyMode kb ((mem_allEntries s kb).mpr (Or.inr (Or.inr (Or.inr h))))
          · intro kb hkb
            rcases hrepl kb hkb with h | rfl
            · exact hw.attemptBound kb h
            · simpa using hatt
          · intro kb hkb
            rcases hrepl kb hkb with h | rfl
            · exact hw.inflightFlushing kb h
            · simpa using hw.inflightFlushing kb0 hmem
        · rw [if_neg hatt]
          exact WF_finishInflight s hw k kb0 hf .exhaustedFailed

/-- The appended batch of an accepted enqueue is nonempty, within the size
bound, and carries its destination type's delivery mode. -/
theorem appendedBatch_facts (s : SysState) (hw : WF s) (a : SendArgs) (dt : DestType) :
    (appendedBatch s a dt).records ≠ []
    ∧ (appendedBatch s a dt).records.length ≤ max 1 (appendedBatch s a dt).policy.effMaxSize
    ∧ (appendedBatch s a dt).policy.deliveryMode
        = (defaultPolicy (destKeyOf dt a.destinationConfig).dtype).deliveryMode := by
  simp only [appendedBatch]
  rcases hop : getOpen s (destKeyOf dt a.destinationConfig) with _ | b0
  · refine ⟨by simp [newBatch], by simp [newBatch], ?_⟩
    simp only [newBatch]
    rw [applyOverride_mode, destKeyOf_dtype]
  · have hmem : (destKeyOf dt a.destinationConfig, b0) ∈ s.openBatches :=
      getOpen_some_mem s _ b0 hop
    have hfull := hw.openNotFull _ hmem
    have hmode := hw.policyMode _ ((mem_allEntries s _).mpr (Or.inl hmem))
    simp only at hfull hmode
    refine ⟨by simp, ?_, by simpa using hmode⟩
    simp only [List.length_append, List.length_cons, List.length_nil]
    calc b0.records.length + (0 + 1) ≤ b0.policy.effMaxSize := by omega
      _ ≤ max 1 b0.policy.effMaxSize := le_max_right 1 _

theorem WF_enqueueCore (s : SysState) (hw : WF s) (a : SendArgs) (dt : DestType) :
    WF (enqueueCore s a dt) := by
  obtain ⟨hbne, hbsize, hbmode⟩ := appendedBatch_facts s hw a dt
  simp only [enqueueCore]
  by_cases hready : (batchFull (appendedBatch s a dt)
      || batchTimedOut (appendedBatch s a dt) s.now) = true
  · rw [if_pos hready]
    constructor
    · exact map_fst_removeOpen_nodup _ _ hw.openKeys
    · exact hw.inflightKeys
    · intro kb hkb
      exact hw.openNotFull kb (mem_removeOpen _ _ kb hkb)
    · intro kb hkb
      rcases (mem_allEntries _ kb).mp hkb with h | h | h | h
      · exact hw.sizeBound kb ((mem_allEntries s kb).mpr (Or.inl (mem_removeOpen _ _ kb h)))
      · rcases List.mem_append.mp h with h | h
        · exact hw.sizeBound kb ((mem_allEntries s kb).mpr (Or.inr (Or.inl h)))
        · simp only [List.mem_cons, List.not_mem_nil, or_false] at h
          subst h
          simpa using hbsize
      · exact hw.sizeBound kb ((mem_allEntries s kb).mpr (Or.inr (Or.inr (Or.inl h))))
      · exact hw.sizeBound kb ((mem_allEntries s kb).mpr (Or.inr (Or.inr (Or.inr h))))
    · intro kb hkb
      rcases (mem_allEntries _ kb).mp hkb with h | h | h | h
      · exact hw.recNonempty kb ((mem_allEntries s kb).mpr (Or.inl (mem_removeOpen _ _ kb h)))
      · rcases List.mem_append.mp h with h | h
        · exact hw.recNonempty kb ((mem_allEntries s kb).mpr (Or.inr (Or.inl h)))
        · simp only [List.mem_cons, List.not_mem_nil, or_false] at h
          subst h
          simpa using hbne
      · exact hw.recNonempty kb ((mem_allEntries s kb).mpr (Or.inr (Or.inr (Or.inl h))))
      · exact hw.recNonempty kb ((mem_allEntries s kb).mpr (Or.inr (Or.inr (Or.inr h))))
    · intro kb hkb
      rcases (mem_allEntries _ kb).mp hkb with h | h | h | h
      · exact hw.policyMode kb ((mem_allEntries s kb).mpr (Or.inl (mem_removeOpen _ _ kb h)))
      · rcases List.mem_append.mp h with h | h
        · exact hw.policyMode kb ((mem_allEntries s kb).mpr (Or.inr (Or.inl h)))
        · simp only [List.mem_cons, List.not_mem_nil, or_false] at h
          subst h
          simpa using hbmode
      · exact hw.policyMode kb ((mem_allEntries s kb).mpr (Or.inr (Or.inr (Or.inl h))))
      · exact hw.policyMode kb ((mem_allEntries s kb).mpr (Or.inr (Or.inr (Or.inr h))))
    · exact hw.attemptBound
    · exact hw.inflightFlushing
  · rw [if_neg hready]
    have hnotfull : (appendedBatch s a dt).records.length
        < (appendedBatch s a dt).policy.effMaxSize := by
      simp only [Bool.or_eq_true, not_or, Bool.not_eq_true] at hready
      have := hready.1
      unfold batchFull at this
      simpa using this
    constructor
    · rw [List.map_append, List.nodup_append]
      refine ⟨map_fst_removeOpen_nodup _ _ hw.openKeys, by simp, ?_⟩
      intro x hx
      simp only [List.map_cons, List.map_nil, List.mem_cons, List.not_mem_nil, or_false]
      intro hxk
      exact not_mem_map_fst_removeOpen _ _ (hxk ▸ hx)
    · exact hw.inflightKeys
    · intro kb hkb
      rcases List.mem_append.mp hkb with h | h
      · exact hw.openNotFull kb (mem_removeOpen _ _ kb h)
      · simp only [List.mem_cons, List.not_mem_nil, or_false] at h
        subst h
        exact hnotfull
    · intro kb hkb
      rcases (mem_allEntries _ kb).mp hkb with h | h | h | h
      · rcases List.mem_append.mp h with h | h
        · exact hw.sizeBound kb ((mem_allEntries s kb).mpr (Or.inl (mem_removeOpen _ _ kb h)))
        · simp only [List.mem_cons, List.not_mem_nil, or_false] at h
          subst h
          exact hbsize
      · exact hw.sizeBound kb ((mem_allEntries s kb).mpr (Or.inr (Or.inl h)))
      · exact hw.sizeBound kb ((mem_allEntries s kb).mpr (Or.inr (Or.inr (Or.inl h))))
      · exact hw.sizeBound kb ((mem_allEntries s kb).mpr (Or.inr (Or.inr (Or.inr h))))
    · intro kb hkb
      rcases (mem_allEntries _ kb).mp hkb with h | h | h | h
      · rcases List.mem_append.mp h with h | h
        · exact hw.recNonempty kb ((mem_allEntries s kb).mpr (Or.inl (mem_removeOpen _ _ kb h)))
        · simp only [List.mem_cons, List.not_mem_nil, or_false] at h
          subst h
          exact hbne
      · exact hw.recNonempty kb ((mem_allEntries s kb).mpr (Or.inr (Or.inl h)))
      · exact hw.recNonempty kb ((mem_allEntries s kb).mpr (Or.inr (Or.inr (Or.inl h))))
      · exact hw.recNonempty kb ((mem_allEntries s kb).mpr (Or.inr (Or.inr (Or.inr h))))
    · intro kb hkb
      rcases (mem_allEntries _ kb).mp hkb with h | h | h | h
      · rcases List.mem_append.mp h with h | h
        · exact hw.policyMode kb ((mem_allEntries s kb).mpr (Or.inl (mem_removeOpen _ _ kb h)))
        · simp only [List.mem_cons, List.not_mem_nil, or_false] at h
          subst h
          exact hbmode
      · exact hw.policyMode kb ((mem_allEntries s kb).mpr (Or.inr (Or.inl h)))
      · exact hw.policyMode kb ((mem_allEntries s kb).mpr (Or.inr (Or.inr (Or.inl h))))
      · exact hw.policyMode kb ((mem_allEntries s kb).mpr (Or.inr (Or.inr (Or.inr h))))
    · exact hw.attemptBound
    · exact hw.inflightFlushing

/-- `step` preserves well-formedness. -/
theorem WF_step (s : SysState) (hw : WF s) (e : Ev) : WF (step s e) := by
  cases e with
  | enq a =>
      simp only [step, enqueue]
      rcases hv : validate a with e | dt
      · exact hw
      · exact WF_enqueueCore s hw a dt
  | tick t => exact WF_tick s hw t
  | dispatch => exact WF_dispatchStep s hw
  | result k o => exact WF_workerResult s hw k o
  | complete eid => exact WF_forceFlush s hw eid

/-- Every state reached from a well-formed state is well-formed. -/
theorem WF_run (s : SysState) (hw : WF s) (evs : List Ev) : WF (run s evs) := by
  induction evs generalizing s with
  | nil => exact hw
  | cons e rest ih => exact ih (step s e) (WF_step s hw e)

/-! #### Per-key record history through a trace -/

/-- The records a single event appends for a key: exactly the accepted
enqueue's record when its Destination Key matches, nothing otherwise. -/
def newRecs (k : DestKey) (s : SysState) (e : Ev) : List EventRecord :=
  match e with
  | .enq a =>
      match validate a with
      | .ok dt => if destKeyOf dt a.destinationConfig = k then [mkRecord s a dt] else []
      | .error _ => []
  | _ => []

/-- The per-key enqueue order of a trace: the accepted records for that key,
in call order. -/
def enqueueOrder (k : DestKey) : SysState → List Ev → List EventRecord
  | _, [] => []
  | s, e :: rest => newRecs k s e ++ enqueueOrder k (step s e) rest

theorem entriesOfKey_eq_nil_of_not_mem (k : DestKey) (l : List (DestKey × Batch))
    (h : k ∉ l.map Prod.fst) : entriesOfKey k l = [] := by
  unfold entriesOfKey
  rw [List.filter_eq_nil_iff]
  intro kb hkb
  simp only [decide_eq_true_eq]
  intro hk
  exact h (hk ▸ List.mem_map_of_mem Prod.fst hkb)

theorem entriesOfKey_filter_partition (k : DestKey) (l : List (DestKey × Batch))
    (p : DestKey × Batch → Bool) (hnd : (l.map Prod.fst).Nodup) :
    entriesOfKey k (l.filter p) ++ entriesOfKey k (l.filter (fun x => !p x))
      = entriesOfKey k l := by
  induction l with
  | nil => rfl
  | cons kb rest ih =>
      simp only [List.map_cons, List.nodup_cons] at hnd
      by_cases hk : kb.1 = k
      · have hnk : k ∉ rest.map Prod.fst := hk ▸ hnd.1
        have hrp : entriesOfKey k (rest.filter p) = [] := by
          apply entriesOfKey_eq_nil_of_not_mem
          intro hm
          exact hnk (((List.filter_sublist rest).map Prod.fst).subset hm)
        have hrnp : entriesOfKey k (rest.filter (fun x => !p x)) = [] := by
          apply entriesOfKey_eq_nil_of_not_mem
          intro hm
          exact hnk (((List.filter_sublist rest).map Prod.fst).subset hm)
        have hrest : entriesOfKey k rest = [] := entriesOfKey_eq_nil_of_not_mem k rest hnk
        unfold entriesOfKey at hrp hrnp hrest ⊢
        cases hp : p kb
        · simp [List.filter_cons, hp, hk, hrp, hrnp, hrest]
        · simp [List.filter_cons, hp, hk, hrp, hrnp, hrest]
      · have := ih hnd.2
        unfold entriesOfKey at this ⊢
        cases hp : p kb
        · simpa [List.filter_cons, hp, hk] using this
        · simpa [List.filter_cons, hp, hk] using this

theorem recsOfKey_filter_partition (k : DestKey) (l : List (DestKey × Batch))
    (p : DestKey × Batch → Bool) (hnd : (l.map Prod.fst).Nodup) :
    recsOfKey k (l.filter p) ++ recsOfKey k (l.filter (fun x => !p x))
      = recsOfKey k l := by
  unfold recsOfKey
  rw [← entriesOfKey_filter_partition k l p hnd, List.map_append, List.flatten_append]

theorem getOpen_entriesOfKey_some (s : SysState) (k : DestKey) (b0 : Batch)
    (hnd : (s.openBatches.map Prod.fst).Nodup) (h : getOpen s k = some b0) :
    entriesOfKey k s.openBatches = [(k, b0)] := by
  unfold getOpen at h
  rcases hf : s.openBatches.find? (fun kb => decide (kb.1 = k)) with _ | kb
  · rw [hf] at h; simp at h
  · rw [hf] at h
    simp only [Option.some.injEq] at h
    have hkey := find?_some_key k _ kb hf
    have heq : kb = (k, b0) := by
      cases kb with
      | mk k' b' => simp only at hkey h; rw [hkey, h]
    exact heq ▸ entriesOfKey_eq_of_find?_nodup k _ kb hnd hf

theorem getOpen_entriesOfKey_none (s : SysState) (k : DestKey)
    (h : getOpen s k = none) : entriesOfKey k s.openBatches = [] := by
  unfold getOpen at h
  rcases hf : s.openBatches.find? (fun kb => decide (kb.1 = k)) with _ | kb
  · exact find?_none_entriesOfKey k _ hf
  · rw [hf] at h; simp at h

theorem recsOfKey_map_ready (k : DestKey) (l : List (DestKey × Batch)) :
    recsOfKey k (l.map (fun kb => (kb.1, { kb.2 with state := BatchState.ready })))
      = recsOfKey k l := by
  exact recsOfKey_map_records_eq k l
    (fun b => { b with state := BatchState.ready }) (fun b => rfl)

theorem recsOfKey_eq_nil_of_not_mem (k : DestKey) (l : List (DestKey × Batch))
    (h : k ∉ l.map Prod.fst) : recsOfKey k l = [] := by
  unfold recsOfKey
  rw [entriesOfKey_eq_nil_of_not_mem k l h]
  rfl

/-- Moving a batch-set out of the open map to the back of the queue, Ready,
leaves the per-key record history unchanged. -/
theorem histSeq_splitOpen (s : SysState) (k : DestKey) (p : DestKey × Batch → Bool)
    (now' : Nat) (hnd : (s.openBatches.map Prod.fst).Nodup) :
    histSeq k { s with
      now := now'
      openBatches := s.openBatches.filter (fun kb => !p kb)
      dispatchQueue := s.dispatchQueue ++
        (s.openBatches.filter p).map (fun kb => (kb.1, { kb.2 with state := BatchState.ready })) }
      = histSeq k s := by
  unfold histSeq
  simp only
  rw [recsOfKey_append, recsOfKey_map_ready,
    ← recsOfKey_filter_partition k s.openBatches p hnd]
  simp [List.append_assoc]

theorem histSeq_tick (s : SysState) (hw : WF s) (k : DestKey) (t : Nat) :
    histSeq k (tick s t) = histSeq k s :=
  histSeq_splitOpen s k (fun kb => batchTimedOut kb.2 (max s.now t)) (max s.now t) hw.openKeys

theorem histSeq_forceFlush (s : SysState) (hw : WF s) (k : DestKey) (eid : Nat) :
    histSeq k (forceFlushForExecution s eid) = histSeq k s :=
  histSeq_splitOpen s k (fun kb => batchHasExecution kb.2 eid) s.now hw.openKeys

theorem histSeq_dispatchStep (s : SysState) (k : DestKey) :
    histSeq k (dispatchStep s) = histSeq k s := by
  rcases hpick : pickEligible (s.inflight.map Prod.fst) s.dispatchQueue with _ | ⟨⟨k0, b⟩, rest⟩
  · simp only [dispatchStep, hpick]
  · simp only [dispatchStep, hpick]
    obtain ⟨h1, h2, h3, _h4⟩ := pickEligible_spec _ _ _ _ hpick
    simp only at h1 h2 h3
    by_cases hk : k = k0
    · subst hk
      have hI : recsOfKey k s.inflight = [] := recsOfKey_eq_nil_of_not_mem k _ h1
      have hI' : recsOfKey k (s.inflight ++
          [(k, { b with state := BatchState.flushing, attemptNumber := 1 })])
          = b.records := by
        rw [recsOfKey_append, hI, recsOfKey_singleton]
        simp
      have hQ : recsOfKey k s.dispatchQueue = b.records ++ recsOfKey k rest := by
        unfold recsOfKey
        rw [h2]
        simp
      unfold histSeq
      simp only
      rw [hI, hI', hQ]
      simp [List.append_assoc]
    · have hk' : k0 ≠ k := fun hh => hk hh.symm
      have hI' : recsOfKey k (s.inflight ++
          [(k0, { b with state := BatchState.flushing, attemptNumber := 1 })])
          = recsOfKey k s.inflight := by
        rw [recsOfKey_append, recsOfKey_singleton, if_neg hk']
        simp
      have hQ : recsOfKey k s.dispatchQueue = recsOfKey k rest := by
        unfold recsOfKey
        rw [h3 k (fun hh => hk hh)]
      unfold histSeq
      simp only
      rw [hI', hQ]

/-- Finishing the found in-flight batch into the terminal list leaves the
per-key record history unchanged. -/
theorem histSeq_finishInflight (s : SysState) (hw : WF s) (k k0 : DestKey)
    (kb0 : DestKey × Batch)
    (hf : s.inflight.find? (fun kb => decide (kb.1 = k0)) = some kb0) (st : BatchState) :
    histSeq k { s with
      inflight := removeFirstKey s.inflight k0
      terminal := s.terminal ++ [(k0, { kb0.2 with state := st })] } = histSeq k s := by
  have hrm : removeFirstKey s.inflight k0 = removeOpen s.inflight k0 :=
    removeFirstKey_eq_removeOpen k0 s.inflight hw.inflightKeys
  by_cases hk : k = k0
  · subst hk
    have hIk : recsOfKey k s.inflight = kb0.2.records := by
      unfold recsOfKey
      rw [entriesOfKey_eq_of_find?_nodup k s.inflight kb0 hw.inflightKeys hf]
      simp
    have hI' : recsOfKey k (removeFirstKey s.inflight k) = [] := by
      rw [hrm]
      exact recsOfKey_removeOpen_self k s.inflight
    have hT' : recsOfKey k (s.terminal ++ [(k, { kb0.2 with state := st })])
        = recsOfKey k s.terminal ++ kb0.2.records := by
      rw [recsOfKey_append, recsOfKey_singleton]
      simp
    unfold histSeq
    simp only
    rw [hI', hT', hIk]
    simp [List.append_assoc]
  · have hk' : k0 ≠ k := fun hh => hk hh.symm
    have hI' : recsOfKey k (removeFirstKey s.inflight k0) = recsOfKey k s.inflight := by
      rw [hrm]
      exact recsOfKey_removeOpen_ne k k0 s.inflight hk
    have hT' : recsOfKey k (s.terminal ++ [(k0, { kb0.2 with state := st })])
        = recsOfKey k s.terminal := by
      rw [recsOfKey_append, recsOfKey_singleton, if_neg hk']
      simp
    unfold histSeq
    simp only
    rw [hI', hT']

theorem histSeq_workerResult (s : SysState) (hw : WF s) (k k0 : DestKey) (o : Outcome) :
    histSeq k (workerResult s k0 o) = histSeq k s := by
  rcases hf : s.inflight.find? (fun kb => decide (kb.1 = k0)) with _ | kb0
  · simp only [workerResult, hf]
  · simp only [workerResult, hf]
    cases o with
    | success => exact histSeq_finishInflight s hw k k0 kb0 hf .delivered
    | permanent => exact histSeq_finishInflight s hw k k0 kb0 hf .exhaustedFailed
    | transient =>
        by_cases hatt : kb0.2.attemptNumber < maxAttempts
        · rw [if_pos hatt]
          by_cases hk : k = k0
          · subst hk
            have hIk : recsOfKey k s.inflight = kb0.2.records := by
              unfold recsOfKey
              rw [entriesOfKey_eq_of_find?_nodup k s.inflight kb0 hw.inflightKeys hf]
              simp
            have hI' : recsOfKey k (replaceFirstKey s.inflight k
                { kb0.2 with
                  attemptNumber := kb0.2.attemptNumber + 1
                  nextRetryAt := s.now + backoffMs kb0.2.attemptNumber })
                = kb0.2.records := by
              unfold recsOfKey
              rw [entriesOfKey_replaceFirstKey_self k _ s.inflight kb0 hw.inflightKeys hf]
              simp
            unfold histSeq
            simp only
            rw [hI', hIk]
          · have hI' : recsOfKey k (replaceFirstKey s.inflight k0
                { kb0.2 with
                  attemptNumber := kb0.2.attemptNumber + 1
                  nextRetryAt := s.now + backoffMs kb0.2.attemptNumber })
                = recsOfKey k s.inflight :=
              recsOfKey_replaceFirstKey_ne k0 k _ s.inflight hk
            unfold histSeq
            simp only
            rw [hI']
        · rw [if_neg hatt]
          exact histSeq_finishInflight s hw k k0 kb0 hf .exhaustedFailed

/-- The appended batch's records are the key's open records plus the new
record. -/
theorem appendedBatch_records (s : SysState) (hw : WF s) (a : SendArgs) (dt : DestType) :
    (appendedBatch s a dt).records
      = recsOfKey (destKeyOf dt a.destinationConfig) s.openBatches ++ [mkRecord s a dt] := by
  simp only [appendedBatch]
  rcases hop : getOpen s (destKeyOf dt a.destinationConfig) with _ | b0
  · unfold recsOfKey
    rw [getOpen_entriesOfKey_none s _ hop]
    simp [newBatch]
  · unfold recsOfKey
    rw [getOpen_entriesOfKey_some s _ b0 hw.openKeys hop]
    simp

theorem histSeq_enqueueCore (s : SysState) (hw : WF s) (k : DestKey) (a : SendArgs)
    (dt : DestType) :
    histSeq k (enqueueCore s a dt)
      = histSeq k s
        ++ (if destKeyOf dt a.destinationConfig = k then [mkRecord s a dt] else []) := by
  have hb := appendedBatch_records s hw a dt
  simp only [enqueueCore]
  by_cases hready : (batchFull (appendedBatch s a dt)
      || batchTimedOut (appendedBatch s a dt) s.now) = true
  · rw [if_pos hready]
    by_cases hk : destKeyOf dt a.destinationConfig = k
    · rw [if_pos hk]
      subst hk
      unfold histSeq
      simp only
      rw [recsOfKey_removeOpen_self, recsOfKey_append, recsOfKey_singleton, if_pos rfl]
      simp only
      rw [hb]
      simp [List.append_assoc]
    · rw [if_neg hk]
      unfold histSeq
      simp only
      rw [recsOfKey_removeOpen_ne _ _ _ (fun hh => hk hh.symm),
        recsOfKey_append, recsOfKey_singleton, if_neg hk]
      simp
  · rw [if_neg hready]
    by_cases hk : destKeyOf dt a.destinationConfig = k
    · rw [if_pos hk]
      subst hk
      unfold histSeq
      simp only
      rw [recsOfKey_append, recsOfKey_removeOpen_self, recsOfKey_singleton, if_pos rfl]
      rw [hb]
      simp [List.append_assoc]
    · rw [if_neg hk]
      unfold histSeq
      simp only
      rw [recsOfKey_append, recsOfKey_removeOpen_ne _ _ _ (fun hh => hk hh.symm),
        recsOfKey_singleton, if_neg hk]
      simp

/-- One step extends the per-key history by exactly the new records of the
event. -/
theorem histSeq_step (s : SysState) (hw : WF s) (k : DestKey) (e : Ev) :
    histSeq k (step s e) = histSeq k s ++ newRecs k s e := by
  cases e with
  | enq a =>
      simp only [step, enqueue, newRecs]
      rcases hv : validate a with err | dt
      · simp
      · exact histSeq_enqueueCore s hw k a dt
  | tick t =>
      simp only [step, newRecs]
      rw [histSeq_tick s hw k t]
      simp
  | dispatch =>
      simp only [step, newRecs]
      rw [histSeq_dispatchStep]
      simp
  | result k0 o =>
      simp only [step, newRecs]
      rw [histSeq_workerResult s hw k k0 o]
      simp
  | complete eid =>
      simp only [step, newRecs]
      rw [histSeq_forceFlush s hw k eid]
      simp

/-- A trace extends the per-key history by exactly the accepted records of
its enqueues, in call order. -/
theorem histSeq_run (s : SysState) (hw : WF s) (k : DestKey) (evs : List Ev) :
    histSeq k (run s evs) = histSeq k s ++ enqueueOrder k s evs := by
  induction evs generalizing s with
  | nil => simp [run, enqueueOrder]
  | cons e rest ih =>
      have hr : run s (e :: rest) = run (step s e) rest := rfl
      rw [hr, ih (step s e) (WF_step s hw e), histSeq_step s hw k e]
      simp [enqueueOrder, List.append_assoc]

/-! #### Draining the dispatcher (for forced-flush liveness) -/

/-- Dispatcher and worker events that drive every queued and in-flight batch
to a terminal outcome: report success for the in-flight head, else dispatch
the next queued batch. -/
def drainEvs : Nat → SysState → List Ev
  | 0, _ => []
  | fuel + 1, s =>
      match s.inflight with
      | kb :: _ =>
          Ev.result kb.1 .success :: drainEvs fuel (step s (Ev.result kb.1 .success))
      | [] =>
          match s.dispatchQueue with
          | [] => []
          | _ :: _ => Ev.dispatch :: drainEvs fuel (step s Ev.dispatch)

theorem step_result_head (s : SysState) (kb : DestKey × Batch)
    (rest : List (DestKey × Batch)) (h : s.inflight = kb :: rest) :
    step s (Ev.result kb.1 .success)
      = { s with
          inflight := rest
          terminal := s.terminal ++ [(kb.1, { kb.2 with state := BatchState.delivered })] } := by
  have hf : s.inflight.find? (fun x => decide (x.1 = kb.1)) = some kb := by
    rw [h]
    simp [List.find?]
  simp only [step, workerResult, hf]
  have hrm : removeFirstKey s.inflight kb.1 = rest := by
    rw [h]
    simp [removeFirstKey]
  rw [hrm]

theorem step_dispatch_empty (s : SysState) (kb : DestKey × Batch)
    (rest : List (DestKey × Batch)) (hI : s.inflight = []) (hQ : s.dispatchQueue = kb :: rest) :
    step s Ev.dispatch
      = { s with
          dispatchQueue := rest
          inflight := [(kb.1, { kb.2 with state := BatchState.flushing, attemptNumber := 1 })] } := by
  have hpick : pickEligible (s.inflight.map Prod.fst) s.dispatchQueue = some (kb, rest) := by
    rw [hI, hQ]
    cases kb with
    | mk k b => simp [pickEligible]
  simp only [step, dispatchStep, hpick]
  rw [hI]
  simp

theorem drainEvs_inflight (fuel : Nat) (s : SysState) (kb : DestKey × Batch)
    (rest : List (DestKey × Batch)) (h : s.inflight = kb :: rest) :
    drainEvs (fuel + 1) s
      = Ev.result kb.1 .success :: drainEvs fuel (step s (Ev.result kb.1 .success)) := by
  show (match s.inflight with
    | kb :: _ => Ev.result kb.1 .success :: drainEvs fuel (step s (Ev.result kb.1 .success))
    | [] =>
        match s.dispatchQueue with
        | [] => []
        | _ :: _ => Ev.dispatch :: drainEvs fuel (step s Ev.dispatch)) = _
  rw [h]

theorem drainEvs_dispatch (fuel : Nat) (s : SysState) (kb : DestKey × Batch)
    (rest : List (DestKey × Batch)) (hI : s.inflight = []) (hQ : s.dispatchQueue = kb :: rest) :
    drainEvs (fuel + 1) s = Ev.dispatch :: drainEvs fuel (step s Ev.dispatch) := by
  show (match s.inflight with
    | kb :: _ => Ev.result kb.1 .success :: drainEvs fuel (step s (Ev.result kb.1 .success))
    | [] =>
        match s.dispatchQueue with
        | [] => []
        | _ :: _ => Ev.dispatch :: drainEvs fuel (step s Ev.dispatch)) = _
  rw [hI, hQ]

theorem drainEvs_empty (fuel : Nat) (s : SysState) (hI : s.inflight = [])
    (hQ : s.dispatchQueue = []) : drainEvs fuel s = [] := by
  cases fuel with
  | zero => rfl
  | succ fuel =>
      show (match s.inflight with
        | kb :: _ => Ev.result kb.1 .success :: drainEvs fuel (step s (Ev.result kb.1 .success))
        | [] =>
            match s.dispatchQueue with
            | [] => []
            | _ :: _ => Ev.dispatch :: drainEvs fuel (step s Ev.dispatch)) = _
      rw [hI, hQ]

/-- Draining with enough fuel empties the dispatcher queue and the in-flight
set, leaves the open map alone, keeps old terminal batches, delivers every
batch that was queued or in flight, and enqueues nothing. -/
theorem drain_spec (fuel : Nat) : ∀ s : SysState,
    2 * s.dispatchQueue.length + s.inflight.length ≤ fuel →
    (run s (drainEvs fuel s)).dispatchQueue = []
    ∧ (run s (drainEvs fuel s)).inflight = []
    ∧ (run s (drainEvs fuel s)).openBatches = s.openBatches
    ∧ (∀ kb ∈ s.terminal, kb ∈ (run s (drainEvs fuel s)).terminal)
    ∧ (∀ kb ∈ s.inflight,
        (kb.1, { kb.2 with state := BatchState.delivered }) ∈ (run s (drainEvs fuel s)).terminal)
    ∧ (∀ kb ∈ s.dispatchQueue,
        (kb.1, { kb.2 with state := BatchState.delivered, attemptNumber := 1 })
          ∈ (run s (drainEvs fuel s)).terminal)
    ∧ (∀ e ∈ drainEvs fuel s, ∀ a, e ≠ Ev.enq a) := by
  induction fuel with
  | zero =>
      intro s hfuel
      have hQ : s.dispatchQueue = [] := by
        rcases hq : s.dispatchQueue with _ | _
        · rfl
        · exfalso
          rw [hq] at hfuel
          simp only [List.length_cons] at hfuel
          omega
      have hI : s.inflight = [] := by
        rcases hi : s.inflight with _ | _
        · rfl
        · exfalso
          rw [hi] at hfuel
          simp only [List.length_cons] at hfuel
          omega
      refine ⟨by simpa [run, drainEvs] using hQ, by simpa [run, drainEvs] using hI,
        by simp [run, drainEvs], by simp [run, drainEvs], ?_, ?_, by simp [drainEvs]⟩
      · intro kb hkb; rw [hI] at hkb; simp at hkb
      · intro kb hkb; rw [hQ] at hkb; simp at hkb
  | succ fuel ih =>
      intro s hfuel
      rcases hI : s.inflight with _ | ⟨kb, restI⟩
      · rcases hQ : s.dispatchQueue with _ | ⟨qb, restQ⟩
        · rw [drainEvs_empty (fuel + 1) s hI hQ]
          refine ⟨by simpa [run] using hQ, by simpa [run] using hI, by simp [run],
            by simp [run], ?_, ?_, by simp⟩
          · intro kb hkb
            simp only [hI, List.not_mem_nil] at hkb
          · intro kb hkb
            simp only [hQ, List.not_mem_nil] at hkb
        · rw [drainEvs_dispatch fuel s qb restQ hI hQ]
          set s1 := step s Ev.dispatch with hs1
          have hs1eq : s1 = { s with
              dispatchQueue := restQ
              inflight := [(qb.1, { qb.2 with state := BatchState.flushing, attemptNumber := 1 })] } :=
            step_dispatch_empty s qb restQ hI hQ
          have hm : 2 * s1.dispatchQueue.length + s1.inflight.length ≤ fuel := by
            rw [hs1eq]
            rw [hQ, hI] at hfuel
            simp at hfuel ⊢
            omega
          obtain ⟨c1, c2, c3, c4, c5, c6, c7⟩ := ih s1 hm
          have hrun : run s (Ev.dispatch :: drainEvs fuel s1) = run s1 (drainEvs fuel s1) := rfl
          refine ⟨by rw [hrun]; exact c1, by rw [hrun]; exact c2, ?_, ?_, ?_, ?_, ?_⟩
          · rw [hrun, c3, hs1eq]
          · intro x hx
            rw [hrun]
            exact c4 x (by rw [hs1eq]; exact hx)
          · intro x hx
            simp only [hI, List.not_mem_nil] at hx
          · intro x hx
            simp only [hQ, List.mem_cons] at hx
            rcases hx with hx | hx
            · subst hx
              rw [hrun]
              have := c5 (x.1, { x.2 with state := BatchState.flushing, attemptNumber := 1 })
                (by rw [hs1eq]; simp)
              simpa using this
            · rw [hrun]
              exact c6 x (by rw [hs1eq]; exact hx)
          · intro e he
            rcases List.mem_cons.mp he with he | he
            · subst he; intro a h; cases h
            · exact c7 e he
      · rw [drainEvs_inflight fuel s kb restI hI]
        set s1 := step s (Ev.result kb.1 .success) with hs1
        have hs1eq : s1 = { s with
            inflight := restI
            terminal := s.terminal ++ [(kb.1, { kb.2 with state := BatchState.delivered })] } :=
          step_result_head s kb restI hI
        have hm : 2 * s1.dispatchQueue.length + s1.inflight.length ≤ fuel := by
          rw [hs1eq]
          rw [hI] at hfuel
          simp only [List.length_cons] at hfuel ⊢
          omega
        obtain ⟨c1, c2, c3, c4, c5, c6, c7⟩ := ih s1 hm
        have hrun : run s (Ev.result kb.1 .success :: drainEvs fuel s1)
            = run s1 (drainEvs fuel s1) := rfl
        refine ⟨by rw [hrun]; exact c1, by rw [hrun]; exact c2, ?_, ?_, ?_, ?_, ?_⟩
        · rw [hrun, c3, hs1eq]
        · intro x hx
          rw [hrun]
          exact c4 x (by rw [hs1eq]; simp [List.mem_append]; exact Or.inl hx)
        · intro x hx
          simp only [hI, List.mem_cons] at hx
          rcases hx with hx | hx
          · subst hx
            rw [hrun]
            exact c4 (x.1, { x.2 with state := BatchState.delivered })
              (by rw [hs1eq]; simp [List.mem_append])
          · rw [hrun]
            exact c5 x (by rw [hs1eq]; exact hx)
        · intro x hx
          rw [hrun]
          exact c6 x (by rw [hs1eq]; exact hx)
        · intro e he
          rcases List.mem_cons.mp he with he | he
          · subst he; intro a h; cases h
          · exact c7 e he

/-! #### Delivered and pending projections -/

/-- The Delivered batches of one Destination Key, in delivery order. -/
def deliveredBatches (k : DestKey) (s : SysState) : List Batch :=
  ((entriesOfKey k s.terminal).filter
    (fun kb => decide (kb.2.state = BatchState.delivered))).map (fun kb => kb.2)

/-- The concatenation of the delivered batches' record sequences for one
Destination Key, in delivery order. -/
def deliveredRecs (k : DestKey) (s : SysState) : List EventRecord :=
  ((deliveredBatches k s).map (fun b => b.records)).flatten

/-- The records of one Destination Key still in flight, queued, or open. -/
def pendingRecs (k : DestKey) (s : SysState) : List EventRecord :=
  recsOfKey k s.inflight ++ recsOfKey k s.dispatchQueue ++ recsOfKey k s.openBatches

theorem histSeq_eq_delivered_append_pending (k : DestKey) (s : SysState)
    (hterm : ∀ kb ∈ s.terminal, kb.1 = k → kb.2.state = BatchState.delivered) :
    histSeq k s = deliveredRecs k s ++ pendingRecs k s := by
  have hdel : deliveredRecs k s = recsOfKey k s.terminal := by
    unfold deliveredRecs deliveredBatches recsOfKey
    rw [List.filter_eq_self.mpr ?hall, List.map_map]
    case hall =>
      intro kb hkb
      have hk : kb.1 = k := by
        have := List.of_mem_filter hkb
        simpa using this
      have hmem : kb ∈ s.terminal := List.mem_of_mem_filter hkb
      simpa using hterm kb hmem hk
    rfl
  unfold histSeq pendingRecs
  rw [hdel]
  simp [List.append_assoc]

/-! #### Concrete fixtures used by the witnesses -/

/-- A concrete HTTP destination config. -/
def httpCfg : List (String × JSVal) :=
  [("method", .vstr "POST"), ("url", .vstr "https://example.test/hook")]

/-- A concrete HTTP send call. -/
def httpSend (eid : Nat) (p : JSVal) : SendArgs := ⟨eid, "http", httpCfg, p, none⟩

/-- The Destination Key of the concrete HTTP config. -/
def httpKey : DestKey := destKeyOf .http httpCfg

/-- A concrete object-storage destination config. -/
def osCfg : List (String × JSVal) :=
  [("bucket", .vstr "logs"), ("keyTemplate", .vstr "ev"), ("format", .vstr "json")]

/-- A concrete object-storage send call with a size-2 batching override. -/
def osSend (eid : Nat) (p : JSVal) : SendArgs :=
  ⟨eid, "object-storage", osCfg, p, some ⟨2, 60000⟩⟩

/-- The Destination Key of the concrete object-storage config. -/
def osKey : DestKey := destKeyOf .objectStorage osCfg

/-! #### The claims -/

/-- With every terminal batch of the key Delivered and nothing pending, the
delivered records are exactly the key's enqueue order. -/
theorem delivered_eq_enqueueOrder (evs : List Ev) (k : DestKey)
    (hterm : ∀ kb ∈ (run initState evs).terminal,
        kb.1 = k → kb.2.state = BatchState.delivered)
    (hpend : pendingRecs k (run initState evs) = []) :
    deliveredRecs k (run initState evs) = enqueueOrder k initState evs := by
  have hh := histSeq_run initState WF_initState k evs
  have hinit : histSeq k initState = [] := rfl
  rw [hinit, List.nil_append] at hh
  rw [histSeq_eq_delivered_append_pending k _ hterm, hpend, List.append_nil] at hh
  exact hh

/-- C1: for every trace, once every batch of a Destination Key has reached
`Delivered` and nothing for the key is pending (in flight, queued, or open),
the concatenation of the delivered batches' record sequences, in delivery
order, equals the key's records in enqueue order. -/
theorem c1_delivered_concat_is_enqueue_order (evs : List Ev) (k : DestKey)
    (hterm : ∀ kb ∈ (run initState evs).terminal,
        kb.1 = k → kb.2.state = BatchState.delivered)
    (hpend : pendingRecs k (run initState evs) = []) :
    deliveredRecs k (run initState evs) = enqueueOrder k initState evs :=
  delivered_eq_enqueueOrder evs k hterm hpend

/-- The C1 witness trace: two enqueues for one HTTP key, each dispatched and
delivered. -/
def evsC1 : List Ev :=
  [.enq (httpSend 1 (.vstr "a")), .enq (httpSend 1 (.vstr "b")),
    .dispatch, .result httpKey .success, .dispatch, .result httpKey .success]

theorem c1_delivered_concat_is_enqueue_order_witness :
    deliveredRecs httpKey (run initState evsC1) = enqueueOrder httpKey initState evsC1 :=
  c1_delivered_concat_is_enqueue_order evsC1 httpKey (by decide) (by decide)

/-- C2: in every reachable state, a batch of a batched-mode destination with
a positive `maxBatchSize` never holds more than `maxBatchSize` records, so
the (N+1)-th enqueue for a key never lands in the same batch as the first
N. -/
theorem c2_maxBatchSize_bound (evs : List Ev) (kb : DestKey × Batch)
    (hmem : kb ∈ allEntries (run initState evs))
    (hmode : kb.2.policy.deliveryMode = DeliveryMode.batched)
    (hpos : 1 ≤ kb.2.policy.maxBatchSize) :
    kb.2.records.length ≤ kb.2.policy.maxBatchSize := by
  have hw := WF_run initState WF_initState evs
  have hb := hw.sizeBound kb hmem
  have heff : kb.2.policy.effMaxSize = kb.2.policy.maxBatchSize := by
    unfold Policy.effMaxSize
    rw [hmode]
  rw [heff] at hb
  omega

/-- The C2 witness trace: three object-storage enqueues under a size-2
override; the first batch closes at two records. -/
def evsC2 : List Ev :=
  [.enq (osSend 1 (.vstr "a")), .enq (osSend 1 (.vstr "b")), .enq (osSend 1 (.vstr "c"))]

/-- The full batch the C2 trace placed in the dispatcher queue. -/
def kbC2 : DestKey × Batch :=
  (run initState evsC2).dispatchQueue.headD
    (osKey, newBatch initState osKey (defaultPolicy .objectStorage)
      (mkRecord initState (osSend 1 (.vstr "a")) .objectStorage))

theorem c2_maxBatchSize_bound_witness :
    kbC2.2.records.length ≤ kbC2.2.policy.maxBatchSize :=
  c2_maxBatchSize_bound evsC2 kbC2 (by decide) (by decide) (by decide)

/-- C3: in every reachable state at most one batch per Destination Key is in
the `Flushing` state (the in-flight set holds at most one entry per key, and
every in-flight batch is `Flushing`); and the dispatcher never picks a batch
whose key is busy — a Ready batch for a flushing key stays queued, and a pick
takes the head of its key's FIFO subqueue, leaving every other key's subqueue
untouched. -/
theorem c3_single_flight_per_key (evs : List Ev) (k : DestKey)
    (busy : List DestKey) (q : List (DestKey × Batch)) (picked : DestKey × Batch)
    (rest' : List (DestKey × Batch))
    (hp : pickEligible busy q = some (picked, rest')) :
    (entriesOfKey k (run initState evs).inflight).length ≤ 1
    ∧ (∀ kb ∈ (run initState evs).inflight, kb.2.state = BatchState.flushing)
    ∧ picked.1 ∉ busy
    ∧ entriesOfKey picked.1 q = picked :: entriesOfKey picked.1 rest'
    ∧ (∀ k', k' ≠ picked.1 → entriesOfKey k' q = entriesOfKey k' rest') := by
  have hw := WF_run initState WF_initState evs
  obtain ⟨h1, h2, h3, _⟩ := pickEligible_spec busy q picked rest' hp
  refine ⟨?_, hw.inflightFlushing, h1, h2, h3⟩
  have hnd := hw.inflightKeys
  rcases he : entriesOfKey k (run initState evs).inflight with _ | ⟨kb, rest⟩
  · simp
  · have hsub : (kb :: rest).Sublist (run initState evs).inflight := by
      rw [← he]
      exact List.filter_sublist _
    rcases rest with _ | ⟨kb2, rest2⟩
    · simp
    · exfalso
      have hkb : kb.1 = k := by
        have : kb ∈ entriesOfKey k (run initState evs).inflight := by
          rw [he]; exact List.mem_cons_self _ _
        have := List.of_mem_filter this
        simpa using this
      have hkb2 : kb2.1 = k := by
        have : kb2 ∈ entriesOfKey k (run initState evs).inflight := by
          rw [he]; exact List.mem_cons_of_mem _ (List.mem_cons_self _ _)
        have := List.of_mem_filter this
        simpa using this
      have hnd2 : ((kb :: kb2 :: rest2).map Prod.fst).Nodup :=
        (hsub.map Prod.fst).nodup hnd
      simp only [List.map_cons, List.nodup_cons, List.mem_cons] at hnd2
      exact hnd2.1 (Or.inl (hkb.trans hkb2.symm))

/-- The C3 witness: after one dispatch the key is busy, and a pick from a
queue headed by a busy-key batch takes the later idle-key batch. -/
theorem c3_single_flight_per_key_witness :
    (entriesOfKey httpKey
      (run initState [.enq (httpSend 1 (.vstr "a")), .dispatch]).inflight).length ≤ 1 :=
  (c3_single_flight_per_key [.enq (httpSend 1 (.vstr "a")), .dispatch] httpKey
    [httpKey]
    [(httpKey, kbC2.2), (osKey, kbC2.2)]
    (osKey, kbC2.2) [(httpKey, kbC2.2)] (by decide)).1

/-- C4: `send`/`enqueue` fails synchronously exactly when validation fails
(unserializable payload, unknown destination type, or incomplete config for
the type), the raised error is the `ValidationError` of the failed
validation, the error never depends on the delivery-layer state, and on the
failure branch the state is unchanged — no record is appended anywhere. -/
theorem c4_send_raises_iff_validation_fails (s : SysState) (a : SendArgs) :
    ((∃ err, enqueue s a = Except.error err) ↔ validArgs a = false)
    ∧ (∀ err, enqueue s a = Except.error err ↔ validate a = Except.error err)
    ∧ (∀ err, validate a = Except.error err → step s (Ev.enq a) = s)
    ∧ (validArgs a = true → ∃ s', enqueue s a = Except.ok s') := by
  rcases hv : validate a with err0 | dt
  case error =>
    have hva : validArgs a = false := by
      unfold validate at hv
      unfold validArgs
      by_cases h1 : serializable a.payload = false
      · simp [h1]
      · rw [if_neg h1] at hv
        rcases hp : parseDestType a.destinationType with _ | dt
        · simp [hp]
        · simp only [hp] at hv
          by_cases h2 : configValid dt a.destinationConfig = false
          · simp [hp, h2]
          · rw [if_neg h2] at hv
            cases hv
    refine ⟨?_, ?_, ?_, ?_⟩
    · constructor
      · intro _
        exact hva
      · intro _
        exact ⟨err0, by simp [enqueue, hv]⟩
    · intro err
      simp [enqueue, hv]
    · intro err _
      simp [step, enqueue, hv]
    · intro hcontra
      rw [hva] at hcontra
      cases hcontra
  case ok =>
    have hva : validArgs a = true := by
      unfold validate at hv
      unfold validArgs
      by_cases h1 : serializable a.payload = false
      · rw [if_pos h1] at hv
        cases hv
      · rw [if_neg h1] at hv
        have h1' : serializable a.payload = true := by
          cases h : serializable a.payload
          · exact absurd h h1
          · rfl
        rcases hp : parseDestType a.destinationType with _ | dt'
        · simp only [hp] at hv
          cases hv
        · simp only [hp] at hv
          by_cases h2 : configValid dt' a.destinationConfig = false
          · rw [if_pos h2] at hv
            cases hv
          · have h2' : configValid dt' a.destinationConfig = true := by
              cases h : configValid dt' a.destinationConfig
              · exact absurd h h2
              · rfl
            simp [h1', hp, h2']
    refine ⟨?_, ?_, ?_, ?_⟩
    · constructor
      · rintro ⟨err, herr⟩
        simp [enqueue, hv] at herr
      · intro h
        rw [hva] at h
        cases h
    · intro err
      constructor
      · intro h
        simp [enqueue, hv] at h
      · intro h
        cases h
    · intro err h
      cases h
    · intro _
      exact ⟨enqueueCore s a dt, by simp [enqueue, hv]⟩

theorem c4_send_raises_iff_validation_fails_witness :
    step initState (Ev.enq ⟨1, "bogus", [], JSVal.vstr "x", none⟩) = initState :=
  (c4_send_raises_iff_validation_fails initState
    ⟨1, "bogus", [], JSVal.vstr "x", none⟩).2.2.1
    (ValidationError.unknownDestinationType "bogus") rfl

theorem flatten_singletons (bs : List (List EventRecord)) (L : List EventRecord)
    (h : bs.flatten = L) (h1 : ∀ b ∈ bs, b.length = 1) :
    bs = L.map (fun x => [x]) := by
  induction bs generalizing L with
  | nil =>
      subst h
      rfl
  | cons b rest ih =>
      have hb := h1 b (List.mem_cons_self _ _)
      rcases List.length_eq_one.mp hb with ⟨x, rfl⟩
      subst h
      simp only [List.flatten_cons, List.singleton_append, List.map_cons]
      congr 1
      exact ih rest.flatten rfl (fun b hb => h1 b (List.mem_cons_of_mem _ hb))

/-- C5: for a Destination Key whose type's delivery mode is `immediate`,
every batch in every reachable state holds exactly one record, and once all
its batches are Delivered with nothing pending, the delivered batches are
the singleton batches of the enqueued records, in call order. -/
theorem c5_immediate_single_record_batches (evs : List Ev) (k : DestKey)
    (himm : (defaultPolicy k.dtype).deliveryMode = DeliveryMode.immediate)
    (hterm : ∀ kb ∈ (run initState evs).terminal,
        kb.1 = k → kb.2.state = BatchState.delivered)
    (hpend : pendingRecs k (run initState evs) = []) :
    (∀ kb ∈ allEntries (run initState evs), kb.1 = k → kb.2.records.length = 1)
    ∧ (deliveredBatches k (run initState evs)).map (fun b => b.records)
        = (enqueueOrder k initState evs).map (fun r => [r]) := by
  have hw := WF_run initState WF_initState evs
  have hone : ∀ kb ∈ allEntries (run initState evs), kb.1 = k → kb.2.records.length = 1 := by
    intro kb hkb hk
    have hmode := hw.policyMode kb hkb
    rw [hk, himm] at hmode
    have heff : kb.2.policy.effMaxSize = 1 := by
      unfold Policy.effMaxSize
      rw [hmode]
    have hb := hw.sizeBound kb hkb
    rw [heff] at hb
    have hne := hw.recNonempty kb hkb
    have hpos : 0 < kb.2.records.length := List.length_pos.mpr hne
    simp only [Nat.max_self] at hb
    omega
  refine ⟨hone, ?_⟩
  have hc1 := delivered_eq_enqueueOrder evs k hterm hpend
  apply flatten_singletons
  · exact hc1
  · intro b hb
    rcases List.mem_map.mp hb with ⟨b0, hb0, rfl⟩
    rcases List.mem_map.mp hb0 with ⟨kb, hkb, rfl⟩
    have hkmem : kb ∈ entriesOfKey k (run initState evs).terminal :=
      List.mem_of_mem_filter hkb
    have hk : kb.1 = k := by
      have := List.of_mem_filter hkmem
      simpa using this
    have hterm2 : kb ∈ (run initState evs).terminal := List.mem_of_mem_filter hkmem
    exact hone kb ((mem_allEntries _ kb).mpr (Or.inr (Or.inr (Or.inr hterm2)))) hk

/-- The C5 witness trace: the spec scenario — three HTTP events for one URL
with the immediate policy, each delivered on its own. -/
def evsC5 : List Ev :=
  [.enq (httpSend 1 (.vstr "a")), .enq (httpSend 1 (.vstr "b")),
    .enq (httpSend 1 (.vstr "c")),
    .dispatch, .result httpKey .success,
    .dispatch, .result httpKey .success,
    .dispatch, .result httpKey .success]

theorem c5_immediate_single_record_batches_witness :
    (deliveredBatches httpKey (run initState evsC5)).map (fun b => b.records)
      = (enqueueOrder httpKey initState evsC5).map (fun r => [r]) :=
  (c5_immediate_single_record_batches evsC5 httpKey (by decide) (by decide) (by decide)).2

/-- C6: the Delivery Worker's retry policy — a permanent failure moves the
in-flight batch straight to `Exhausted-Failed` with its attempt count
unchanged (so a first-attempt permanent failure ends after exactly 1
attempt) and nothing of the key remains in flight; a transient failure
retries with the attempt count incremented and the next retry computed by
exponential backoff while attempts remain, and exhausts otherwise; the
attempt count of every in-flight batch is bounded by `maxAttempts`; and the
backoff doubles with each attempt. -/
theorem c6_retry_policy (evs : List Ev) (k : DestKey) (kb0 : DestKey × Batch) (n : Nat)
    (hf : (run initState evs).inflight.find? (fun kb => decide (kb.1 = k)) = some kb0) :
    (workerResult (run initState evs) k Outcome.permanent).terminal
      = (run initState evs).terminal
        ++ [(k, { kb0.2 with state := BatchState.exhaustedFailed })]
    ∧ ({ kb0.2 with state := BatchState.exhaustedFailed } : Batch).attemptNumber
        = kb0.2.attemptNumber
    ∧ (workerResult (run initState evs) k Outcome.permanent).inflight.find?
        (fun kb => decide (kb.1 = k)) = none
    ∧ (kb0.2.attemptNumber < maxAttempts →
        (workerResult (run initState evs) k Outcome.transient).inflight.find?
            (fun kb => decide (kb.1 = k))
          = some (k, { kb0.2 with
              attemptNumber := kb0.2.attemptNumber + 1
              nextRetryAt := (run initState evs).now + backoffMs kb0.2.attemptNumber })
        ∧ (workerResult (run initState evs) k Outcome.transient).terminal
            = (run initState evs).terminal)
    ∧ (maxAttempts ≤ kb0.2.attemptNumber →
        (workerResult (run initState evs) k Outcome.transient).terminal
          = (run initState evs).terminal
            ++ [(k, { kb0.2 with state := BatchState.exhaustedFailed })])
    ∧ (∀ kb ∈ (run initState evs).inflight, kb.2.attemptNumber ≤ maxAttempts)
    ∧ (1 ≤ n → backoffMs (n + 1) = 2 * backoffMs n) := by
  have hw := WF_run initState WF_initState evs
  refine ⟨?_, rfl, ?_, ?_, ?_, hw.attemptBound, ?_⟩
  · simp only [workerResult, hf]
  · simp only [workerResult, hf]
    rw [removeFirstKey_eq_removeOpen k _ hw.inflightKeys]
    exact find?_removeOpen_self k _
  · intro hatt
    constructor
    · simp only [workerResult, hf, if_pos hatt]
      exact find?_replaceFirstKey_self k _ _ kb0 hf
    · simp only [workerResult, hf, if_pos hatt]
  · intro hatt
    have hlt : ¬ kb0.2.attemptNumber < maxAttempts := by omega
    simp only [workerResult, hf, if_neg hlt]
  · intro hn
    unfold backoffMs
    rcases Nat.exists_eq_add_of_le hn with ⟨m, rfl⟩
    have h1 : 1 + m + 1 - 1 = m + 1 := by omega
    have h2 : 1 + m - 1 = m := by omega
    rw [h1, h2, pow_succ]
    ring

/-- The C6 witness trace: one HTTP enqueue, dispatched into flight. -/
def evsC6 : List Ev := [.enq (httpSend 1 (.vstr "a")), .dispatch]

/-- The in-flight batch of the C6 trace. -/
def kbC6 : DestKey × Batch := (run initState evsC6).inflight.headD (httpKey, kbC2.2)

theorem c6_retry_policy_witness :
    (workerResult (run initState evsC6) httpKey Outcome.permanent).inflight.find?
      (fun kb => decide (kb.1 = httpKey)) = none :=
  (c6_retry_policy evsC6 httpKey kbC6 1 (by decide)).2.2.1

/-- C7: `forceFlushForExecution(e)` marks every open batch holding a record
of execution `e` as Ready and hands it to the dispatcher, regardless of size
or time thresholds — no open batch with such a record remains — and a
following run of dispatcher and worker events containing no enqueue drives
every such batch (records intact) to a terminal state. -/
theorem c7_forceFlush_reaches_terminal (s : SysState) (eid : Nat) :
    (∀ kb ∈ (forceFlushForExecution s eid).openBatches,
        batchHasExecution kb.2 eid = false)
    ∧ (∀ kb ∈ s.openBatches, batchHasExecution kb.2 eid = true →
        (kb.1, { kb.2 with state := BatchState.ready })
          ∈ (forceFlushForExecution s eid).dispatchQueue)
    ∧ (∀ e ∈ drainEvs
        (2 * (forceFlushForExecution s eid).dispatchQueue.length
          + (forceFlushForExecution s eid).inflight.length)
        (forceFlushForExecution s eid), ∀ a, e ≠ Ev.enq a)
    ∧ (∀ kb ∈ s.openBatches, batchHasExecution kb.2 eid = true →
        ∃ b', (kb.1, b') ∈ (run (forceFlushForExecution s eid)
            (drainEvs
              (2 * (forceFlushForExecution s eid).dispatchQueue.length
                + (forceFlushForExecution s eid).inflight.length)
              (forceFlushForExecution s eid))).terminal
          ∧ b'.batchId = kb.2.batchId
          ∧ b'.records = kb.2.records
          ∧ (b'.state = BatchState.delivered ∨ b'.state = BatchState.exhaustedFailed)) := by
  obtain ⟨d1, d2, d3, d4, d5, d6, d7⟩ :=
    drain_spec
      (2 * (forceFlushForExecution s eid).dispatchQueue.length
        + (forceFlushForExecution s eid).inflight.length)
      (forceFlushForExecution s eid) (le_refl _)
  have hqueue : ∀ kb ∈ s.openBatches, batchHasExecution kb.2 eid = true →
      (kb.1, { kb.2 with state := BatchState.ready })
        ∈ (forceFlushForExecution s eid).dispatchQueue := by
    intro kb hkb hp
    unfold forceFlushForExecution
    simp only
    apply List.mem_append.mpr
    right
    apply List.mem_map.mpr
    exact ⟨kb, List.mem_filter.mpr ⟨hkb, by simpa using hp⟩, rfl⟩
  refine ⟨?_, hqueue, d7, ?_⟩
  · intro kb hkb
    unfold forceFlushForExecution at hkb
    simp only at hkb
    have := List.of_mem_filter hkb
    simpa using this
  · intro kb hkb hp
    have hmem := d6 (kb.1, { kb.2 with state := BatchState.ready }) (hqueue kb hkb hp)
    refine ⟨{ kb.2 with state := BatchState.delivered, attemptNumber := 1 }, ?_, by simp,
      by simp, Or.inl (by simp)⟩
    simpa using hmem

/-- The C7 witness state: one object-storage enqueue of execution 1, still
open (batched policy, below the size threshold). -/
def sC7 : SysState := run initState [.enq (osSend 1 (.vstr "a"))]

/-- The open batch of the C7 witness state. -/
def kbC7 : DestKey × Batch := sC7.openBatches.headD (osKey, kbC2.2)

theorem c7_forceFlush_reaches_terminal_witness :
    ∃ b', (kbC7.1, b') ∈ (run (forceFlushForExecution sC7 1)
        (drainEvs
          (2 * (forceFlushForExecution sC7 1).dispatchQueue.length
            + (forceFlushForExecution sC7 1).inflight.length)
          (forceFlushForExecution sC7 1))).terminal
      ∧ b'.batchId = kbC7.2.batchId
      ∧ b'.records = kbC7.2.records
      ∧ (b'.state = BatchState.delivered ∨ b'.state = BatchState.exhaustedFailed) :=
  (c7_forceFlush_reaches_terminal sC7 1).2.2.2 kbC7 (by decide) (by decide)

theorem c8_emptyObjectToUndefined_keeps_truthy_keys_witness :
    emptyObjectToUndefined (.vobj [("a", .vstr "x"), ("b", .vnum (.int 0))])
      = .ok (.vobj [("a", .vstr "x")]) := by
  have h := (c8_emptyObjectToUndefined_keeps_truthy_keys
      [("a", .vstr "x"), ("b", .vnum (.int 0))] [] .vundefined).1
  have he : List.filter (fun kv => (emptyStrToUndefined kv.2).truthy)
      [("a", JSVal.vstr "x"), ("b", JSVal.vnum (.int 0))] = [("a", JSVal.vstr "x")] := by
    decide
  rw [he] at h
  simpa using h

end Pipedream
